import Mathlib

/-
  Verification of the track-handler core of the Disk-Utilities repository.

  The handlers themselves (disk/rtype.c and disk/longtrack.c) are translated
  faithfully from the C sources.  The MFM bit-stream, the MFM codec, the
  track buffer and the AmigaDOS checksum are external collaborators whose
  code is not part of the sources; they are modelled from the specification
  (sections 3, 4.1, 4.2, 4.3), consistently with how the handler code calls
  them.  Machine integers are Nat with explicit reduction mod 2^32 where the
  C code relies on 32-bit wrap-around.
-/

set_option maxRecDepth 4000

/-! ## Machine-word helpers -/

/-- 2^32, the modulus of the 32-bit machine words used throughout. -/
def U32 : Nat := 4294967296

/-- 32-bit wrap-around subtraction, as performed on C uint32_t values. -/
def wsub (a b : Nat) : Nat := (a + (U32 - b % U32)) % U32

/-! ## CRC-16/CCITT

Modelled from the spec (section 4.1): the stream keeps a running
CRC-16/CCITT that can be reset and sampled; consumed bits accumulate into
it (most-significant bit first, polynomial 0x1021, reset value 0xffff). -/

/-- Modelled from the spec: one bit step of the stream's running CRC-16/CCITT. -/
def crc16_step (crc : Nat) (b : Bool) : Nat :=
  let fb := crc.testBit 15 != b
  let c := (crc * 2) % 65536
  if fb then c ^^^ 0x1021 else c

/-- Modelled from the spec: CRC-16/CCITT over a list of raw bits. -/
def crc16_bits (crc : Nat) (bs : List Bool) : Nat := bs.foldl crc16_step crc

/-! ## The raw MFM bit stream (read side)

Modelled from the spec (sections 3 and 4.1): a forward-only cursor over the
raw bits of a revolution, with a 32-bit rolling shift register (newest bit
in the low position), a bit counter since the last index pulse, the length
in bits of the last finished revolution, and the running CRC.  A stream may
carry several revolutions; crossing an index pulse records the finished
revolution's length in track_len_bc.  End of stream is reached when all
revolutions are exhausted. -/

structure MStream where
  fut : List Bool
  curLen : Nat
  revs : List (List Bool)
  word : Nat
  indexOffsetBc : Nat
  trackLenBc : Nat
  crc : Nat
deriving Repr, DecidableEq

/-- Build a stream from a list of revolutions (each a raw bit list). -/
def mkStream (rs : List (List Bool)) : MStream :=
  match rs with
  | [] => { fut := [], curLen := 0, revs := [], word := 0,
            indexOffsetBc := 0, trackLenBc := 0, crc := 0xffff }
  | r :: rest => { fut := r, curLen := r.length, revs := rest, word := 0,
                   indexOffsetBc := 0, trackLenBc := 0, crc := 0xffff }

/-- Modelled from the spec: consume one raw bit into the shift register
(stream_next_bit).  Crossing an index pulse records the finished
revolution's bit count in track_len_bc.  At end of stream, fails. -/
def stream_next_bit (s : MStream) : Option MStream :=
  match s.fut with
  | b :: rest =>
      some { s with fut := rest,
                    word := (s.word * 2 + (if b then 1 else 0)) % U32,
                    indexOffsetBc := s.indexOffsetBc + 1,
                    crc := crc16_step s.crc b }
  | [] =>
      match s.revs with
      | [] => none
      | r :: rs =>
          match r with
          | [] => none
          | b :: rest =>
              some { fut := rest, curLen := r.length, revs := rs,
                     word := (s.word * 2 + (if b then 1 else 0)) % U32,
                     indexOffsetBc := 1,
                     trackLenBc := s.curLen,
                     crc := crc16_step s.crc b }

/-- Modelled from the spec: consume n bits; reports failure at end of
stream but keeps the partially advanced stream, as the C stream object is
mutated in place (callers that ignore the return value keep reading the
stale shift register). -/
def stream_next_bits_x : Nat → MStream → Bool × MStream
  | 0, s => (true, s)
  | n+1, s =>
      match stream_next_bit s with
      | none => (false, s)
      | some s1 => stream_next_bits_x n s1

/-- stream_next_bits for callers that treat failure as fatal. -/
def stream_next_bits (n : Nat) (s : MStream) : Option MStream :=
  let r := stream_next_bits_x n s
  if r.1 then some r.2 else none

/-- Modelled from the spec: consume n bytes, collecting each byte from the
low 8 bits of the shift register; failure keeps the partially advanced
stream. -/
def stream_next_bytes_x : Nat → MStream → Bool × List Nat × MStream
  | 0, s => (true, [], s)
  | n+1, s =>
      let r := stream_next_bits_x 8 s
      if r.1 then
        let rest := stream_next_bytes_x n r.2
        (rest.1, (r.2.word % 256) :: rest.2.1, rest.2.2)
      else (false, [], r.2)

/-- Modelled from the spec: advance to the next index pulse; track_len_bc
becomes the bit count of the just-finished revolution. -/
def stream_next_index (s : MStream) : MStream :=
  match s.revs with
  | [] => { s with fut := [], trackLenBc := s.curLen, indexOffsetBc := 0 }
  | r :: rs => { s with
                 fut := r, curLen := r.length, revs := rs,
                 trackLenBc := s.curLen, indexOffsetBc := 0 }

/-- Modelled from the spec: reset the running CRC-16/CCITT. -/
def stream_start_crc (s : MStream) : MStream := { s with crc := 0xffff }

/-- Number of raw bits left before end of stream; used as fuel for the
handler scan loops (each loop iteration consumes at least one bit). -/
def streamRemaining (s : MStream) : Nat :=
  s.fut.length + (s.revs.map List.length).sum

/-! ## MFM codec

Modelled from the spec (section 4.2): pure functions that strip or insert
clock bits.  In a raw MFM word the data bits sit at the even bit positions
(each data bit is preceded by its clock bit in stream order, and the newest
consumed bit occupies bit 0 of the shift register). -/

/-- Extract n data bits (the even-position bits) from a raw MFM word:
result bit i is bit 2*i of the argument. -/
def dropClock : Nat → Nat → Nat
  | 0, _ => 0
  | n+1, w => w % 2 + 2 * dropClock n (w / 4)

/-- Modelled from the spec: mfm_decode_word / mfm_decode_bits(MFM_all,-):
strip the clock bits from (the low 32 bits of) a raw word. -/
def mfm_decode_word (w : Nat) : Nat := dropClock 16 w

/-- Modelled from the spec: mfm_decode_bits(MFM_odd, w): the odd-bits
longword carries its data in the even bit positions; decoding masks the
clock bits away. -/
def mfm_decode_bits_odd (w : Nat) : Nat := w &&& 0x55555555

/-- Modelled from the spec: mfm_decode_bytes(MFM_even_odd, n, src): the
first n raw bytes carry the even-position data bits of the n decoded
bytes, the next n raw bytes the odd-position data bits. -/
def mfm_decode_bytes_even_odd (n : Nat) (src : List Nat) : List Nat :=
  (List.range n).map (fun i =>
    (((src.getD i 0 &&& 0x55) <<< 1) ||| (src.getD (n + i) 0 &&& 0x55)))

/-- Big-endian 32-bit value of four bytes (be32toh / ntohl on a buffer). -/
def be32 (b0 b1 b2 b3 : Nat) : Nat := ((b0 * 256 + b1) * 256 + b2) * 256 + b3

/-- The big-endian longwords of a byte buffer. -/
def beLongs : List Nat → List Nat
  | b0 :: b1 :: b2 :: b3 :: rest => be32 b0 b1 b2 b3 :: beLongs rest
  | _ => []

/-- Modelled from the spec: amigados_checksum(buf, n): XOR of all 32-bit
big-endian words of the buffer, masked to the even bit positions
(0x55555555). -/
def amigados_checksum (dat : List Nat) : Nat :=
  ((beLongs dat).foldl Nat.xor 0) &&& 0x55555555

/-! ## Track buffer (write side)

Modelled from the spec (section 4.3): a bit appender.  It keeps the last
raw bit appended so that the clock bit of the next MFM cell can be
computed (an MFM clock cell is 1 exactly when the raw cells on both sides
are 0). -/

structure TBuf where
  bits : List Bool
  prev : Bool
deriving Repr, DecidableEq

def TBuf.empty : TBuf := { bits := [], prev := false }

/-- The low n bits of v, most significant first. -/
def natBitsMSB : Nat → Nat → List Bool
  | 0, _ => []
  | n+1, v => v.testBit n :: natBitsMSB n v

/-- Modelled from the spec: tbuf_bits in raw mode appends the low n bits
of v verbatim, most significant first. -/
def tbuf_bits_raw (tb : TBuf) (n v : Nat) : TBuf :=
  { bits := tb.bits ++ natBitsMSB n v,
    prev := if n = 0 then tb.prev else v.testBit 0 }

/-- MFM-encode the low n bits of v (most significant first), emitting a
clock cell before every data cell; prev is the raw bit preceding the run. -/
def mfmEncodeBits (prev : Bool) : Nat → Nat → List Bool
  | 0, _ => []
  | n+1, v =>
      let d := v.testBit n
      (!prev && !d) :: d :: mfmEncodeBits d n v

/-- Modelled from the spec: tbuf_bits in mfm mode appends the low n bits
of v MFM-encoded (2n raw cells). -/
def tbuf_bits_mfm (tb : TBuf) (n v : Nat) : TBuf :=
  { bits := tb.bits ++ mfmEncodeBits tb.prev n v,
    prev := if n = 0 then tb.prev else v.testBit 0 }

/-- Modelled from the spec: tbuf_bits(MFM_odd, 32, v) emits one raw
longword whose data cells are the even-position bits of v. -/
def tbuf_bits_mfm_odd32 (tb : TBuf) (v : Nat) : TBuf :=
  tbuf_bits_mfm tb 16 (dropClock 16 v)

/-- Modelled from the spec: tbuf_bits(MFM_even, 32, v) emits one raw
longword whose data cells are the odd-position bits of v. -/
def tbuf_bits_mfm_even32 (tb : TBuf) (v : Nat) : TBuf :=
  tbuf_bits_mfm tb 16 (dropClock 16 (v / 2))

/-- Modelled from the spec: tbuf_bits(MFM_even_odd, 32, v): the even-bits
longword followed by the odd-bits longword. -/
def tbuf_bits_mfm_even_odd32 (tb : TBuf) (v : Nat) : TBuf :=
  tbuf_bits_mfm_odd32 (tbuf_bits_mfm_even32 tb v) v

/-- The even-position data bits of a byte, as a 4-bit value. -/
def evenHalf (b : Nat) : Nat := dropClock 4 (b / 2)

/-- The odd-position data bits of a byte, as a 4-bit value. -/
def oddHalf (b : Nat) : Nat := dropClock 4 b

/-- MFM-encode one 4-bit half per byte of the list, threading the clock
state; returns the raw cells and the final previous-bit. -/
def mfmHalves (f : Nat → Nat) (prev : Bool) : List Nat → List Bool × Bool
  | [] => ([], prev)
  | b :: rest =>
      let v := f b
      let r := mfmHalves f (v.testBit 0) rest
      (mfmEncodeBits prev 4 v ++ r.1, r.2)

/-- Modelled from the spec: tbuf_bytes(MFM_even_odd, n, dat): all the
even halves of the n bytes, then all the odd halves. -/
def tbuf_bytes_mfm_even_odd (tb : TBuf) (dat : List Nat) : TBuf :=
  let e := mfmHalves evenHalf tb.prev dat
  let o := mfmHalves oddHalf e.2 dat
  { bits := tb.bits ++ e.1 ++ o.1, prev := o.2 }

/-! ## Track info

From the spec (section 3): the per-track record a handler's decode
operation populates.  The type tags are opaque; only their distinctness
matters, so they are fixed arbitrary naturals here. -/

structure TrackInfo where
  type : Nat
  dat : List Nat
  len : Nat
  nr_sectors : Nat
  bytes_per_sector : Nat
  valid_sectors : Nat
  data_bitoff : Nat
  total_bits : Nat
deriving Repr, DecidableEq

def TRKTYP_rtype_a : Nat := 1
def TRKTYP_rtype_b : Nat := 2
def TRKTYP_protec_longtrack : Nat := 3
def TRKTYP_gremlin_longtrack : Nat := 4
def TRKTYP_tiertex_longtrack : Nat := 5
def TRKTYP_crystals_of_arborea_longtrack : Nat := 6
def TRKTYP_infogrames_longtrack : Nat := 7
def TRKTYP_bat_longtrack : Nat := 8
def TRKTYP_app_longtrack : Nat := 9
def TRKTYP_sevencities_longtrack : Nat := 10
def TRKTYP_empty_longtrack : Nat := 11

/-! ## disk/longtrack.c: helpers -/

/-- Body of check_sequence's while loop, entered with the counter already
known nonzero; reads one 16-bit raw word per iteration (ignoring end of
stream, as the C code discards the return value of stream_next_bits) and
compares the MFM-decoded byte against the expected filler. -/
def check_sequence_aux (byte : Nat) : Nat → MStream → Bool × MStream
  | 0, s => (true, s)
  | k+1, s =>
      let r := stream_next_bits_x 16 s
      if mfm_decode_word r.2.word % 256 ≠ byte then (false, r.2)
      else check_sequence_aux byte k r.2

/-- check_sequence (longtrack.c lines 15-23): while (--nr) { read a 16-bit
word; break unless it decodes to byte }; success iff the loop ran to
completion.  The decrement-then-test means nr-1 words are read for nr >= 1
(and the unsigned decrement wraps for nr = 0). -/
def check_sequence (nr byte : Nat) (s : MStream) : Bool × MStream :=
  check_sequence_aux byte ((nr + (U32 - 1)) % U32) s

/-- check_length (longtrack.c lines 25-29): advance to the next index
pulse and require the measured revolution length to reach min_bits. -/
def check_length (s : MStream) (min_bits : Nat) : Bool × MStream :=
  let s1 := stream_next_index s
  (decide (s1.trackLenBc ≥ min_bits), s1)

/-! ## disk/rtype.c: R-Type variant A -/

/-- The scan loop of rtype_a_write_mfm (rtype.c lines 35-75), fuelled by
the number of raw bits left in the stream: look for sync 0x9521 in the low
16 bits of the shift register, then require an MFM-encoded zero byte, read
the MFM_odd checksum and the even/odd data block, and accept only when the
AmigaDOS checksum of the decoded data matches; on a failed validation keep
scanning, on end of stream give up. -/
def rtype_a_scan : Nat → TrackInfo → MStream → Option (List Nat) × TrackInfo × MStream
  | 0, ti, s => (none, ti, s)
  | fuel+1, ti, s =>
      match stream_next_bit s with
      | none => (none, ti, s)
      | some s1 =>
          if s1.word % 65536 ≠ 0x9521 then rtype_a_scan fuel ti s1
          else
            let ti1 := { ti with data_bitoff := wsub s1.indexOffsetBc 15 }
            let r16 := stream_next_bits_x 16 s1
            if !r16.1 then (none, ti1, r16.2)
            else if mfm_decode_word (r16.2.word % 65536) ≠ 0 then
              rtype_a_scan fuel ti1 r16.2
            else
              let r32 := stream_next_bits_x 32 r16.2
              if !r32.1 then (none, ti1, r32.2)
              else
                let csum := mfm_decode_bits_odd r32.2.word
                let rb := stream_next_bytes_x (2 * ti1.len) r32.2
                if !rb.1 then (none, ti1, rb.2.2)
                else
                  let dat := mfm_decode_bytes_even_odd ti1.len rb.2.1
                  if amigados_checksum dat ≠ csum then rtype_a_scan fuel ti1 rb.2.2
                  else (some dat,
                        { ti1 with valid_sectors := 2 ^ ti1.nr_sectors - 1 },
                        rb.2.2)

/-- rtype_a_write_mfm (rtype.c lines 35-75). -/
def rtype_a_write_mfm (ti : TrackInfo) (s : MStream) :
    Option (List Nat) × TrackInfo × MStream :=
  rtype_a_scan (streamRemaining s) ti s

/-- Decode the per-longword MFM_even_odd groups of rtype_b: each group of
8 raw bytes yields 4 decoded bytes (rtype.c lines 133-134). -/
def rtypeBDecodeGroups : List Nat → List Nat
  | e0 :: e1 :: e2 :: e3 :: o0 :: o1 :: o2 :: o3 :: rest =>
      mfm_decode_bytes_even_odd 4 [e0, e1, e2, e3, o0, o1, o2, o3]
        ++ rtypeBDecodeGroups rest
  | _ => []

/-- The scan loop of rtype_b_write_mfm (rtype.c lines 109-155): sync
0x9521, MFM-encoded zero byte, len/4 longwords each encoded even/odd
per-long, then a trailing even/odd longword that must equal the AmigaDOS
checksum of the decoded data with the even bits kept and all odd bits
forced to 1. -/
def rtype_b_scan : Nat → TrackInfo → MStream → Option (List Nat) × TrackInfo × MStream
  | 0, ti, s => (none, ti, s)
  | fuel+1, ti, s =>
      match stream_next_bit s with
      | none => (none, ti, s)
      | some s1 =>
          if s1.word % 65536 ≠ 0x9521 then rtype_b_scan fuel ti s1
          else
            let ti1 := { ti with data_bitoff := wsub s1.indexOffsetBc 15 }
            let r16 := stream_next_bits_x 16 s1
            if !r16.1 then (none, ti1, r16.2)
            else if mfm_decode_word (r16.2.word % 65536) ≠ 0 then
              rtype_b_scan fuel ti1 r16.2
            else
              let rb := stream_next_bytes_x (2 * ti1.len) r16.2
              if !rb.1 then (none, ti1, rb.2.2)
              else
                let dat := rtypeBDecodeGroups rb.2.1
                let csum := (amigados_checksum dat &&& 0x55555555) ||| 0xaaaaaaaa
                let rt := stream_next_bytes_x 8 rb.2.2
                if !rt.1 then (none, ti1, rt.2.2)
                else
                  let trail := mfm_decode_bytes_even_odd 4 rt.2.1
                  if csum ≠ be32 (trail.getD 0 0) (trail.getD 1 0)
                               (trail.getD 2 0) (trail.getD 3 0) then
                    rtype_b_scan fuel ti1 rt.2.2
                  else (some dat,
                        { ti1 with valid_sectors := 2 ^ ti1.nr_sectors - 1,
                                   total_bits := 105500 },
                        rt.2.2)

/-- rtype_b_write_mfm (rtype.c lines 109-155). -/
def rtype_b_write_mfm (ti : TrackInfo) (s : MStream) :
    Option (List Nat) × TrackInfo × MStream :=
  rtype_b_scan (streamRemaining s) ti s

/-- Group the payload into 4-byte longwords and append each as an
MFM_even_odd group (rtype.c lines 167-168). -/
def rtypeBEncodeGroups (tb : TBuf) : List Nat → TBuf
  | b0 :: b1 :: b2 :: b3 :: rest =>
      rtypeBEncodeGroups (tbuf_bytes_mfm_even_odd tb [b0, b1, b2, b3]) rest
  | _ => tb

/-- rtype_b_read_mfm (rtype.c lines 157-175). -/
def rtype_b_read_mfm (ti : TrackInfo) (tb : TBuf) : TBuf :=
  let tb := tbuf_bits_raw tb 16 0x9521
  let tb := tbuf_bits_mfm tb 8 0
  let tb := rtypeBEncodeGroups tb ti.dat
  let csum := (amigados_checksum ti.dat &&& 0x55555555) ||| 0xaaaaaaaa
  tbuf_bits_mfm_even_odd32 tb csum

/-! ## disk/longtrack.c: the long-track protection handlers -/

/-- The scan loop of protec_longtrack_write_raw (longtrack.c lines 42-65):
record a candidate data_bitoff each iteration, look for sync 0x4454 in the
top half of the shift register, take the filler byte from the low half,
require 999 more filler words, then require the revolution to be at least
107200 bits long -- a length failure aborts the whole scan. -/
def protec_scan : Nat → TrackInfo → MStream → Option (List Nat) × TrackInfo × MStream
  | 0, ti, s => (none, ti, s)
  | fuel+1, ti, s =>
      match stream_next_bit s with
      | none => (none, ti, s)
      | some s1 =>
          let ti1 := { ti with data_bitoff := wsub s1.indexOffsetBc 31 }
          if s1.word / 65536 ≠ 0x4454 then protec_scan fuel ti1 s1
          else
            let byte := mfm_decode_word s1.word % 256
            let rs := check_sequence 1000 byte s1
            if !rs.1 then protec_scan fuel ti1 rs.2
            else
              let rl := check_length rs.2 107200
              if !rl.1 then (none, ti1, rl.2)
              else
                let ti2 := { ti1 with total_bits := 110000, len := 1 }
                (some [byte], ti2, rl.2)

/-- protec_longtrack_write_raw (longtrack.c lines 42-65). -/
def protec_longtrack_write_raw (ti : TrackInfo) (s : MStream) :
    Option (List Nat) × TrackInfo × MStream :=
  protec_scan (streamRemaining s) ti s

/-- Append n MFM-encoded copies of one byte to the track buffer. -/
def tbuf_rep_mfm_byte (tb : TBuf) (byte : Nat) : Nat → TBuf
  | 0 => tb
  | n+1 => tbuf_rep_mfm_byte (tbuf_bits_mfm tb 8 byte) byte n

/-- protec_longtrack_read_raw (longtrack.c lines 67-77): sync 0x4454 raw,
then the stored filler byte MFM-encoded 6000 times. -/
def protec_longtrack_read_raw (ti : TrackInfo) (tb : TBuf) : TBuf :=
  let byte := ti.dat.headD 0
  tbuf_rep_mfm_byte (tbuf_bits_raw tb 16 0x4454) byte 6000

/-- The scan loop of gremlin_longtrack_write_raw (longtrack.c lines
95-110), shared with tiertex_longtrack: record a candidate data_bitoff
each iteration, look for the full-word sync 0x41244124, require 7 zero
filler words; on success set total_bits to 105500 unless the caller had
tagged the track as tiertex_longtrack. -/
def gremlin_scan : Nat → TrackInfo → MStream → Option (List Nat) × TrackInfo × MStream
  | 0, ti, s => (none, ti, s)
  | fuel+1, ti, s =>
      match stream_next_bit s with
      | none => (none, ti, s)
      | some s1 =>
          let ti1 := { ti with data_bitoff := wsub s1.indexOffsetBc 31 }
          if s1.word ≠ 0x41244124 then gremlin_scan fuel ti1 s1
          else
            let rs := check_sequence 8 0x00 s1
            if !rs.1 then gremlin_scan fuel ti1 rs.2
            else
              let ti2 := if ti1.type ≠ TRKTYP_tiertex_longtrack then
                           { ti1 with total_bits := 105500 }
                         else ti1
              (some [], ti2, rs.2)

/-- gremlin_longtrack_write_raw (longtrack.c lines 95-110). -/
def gremlin_longtrack_write_raw (ti : TrackInfo) (s : MStream) :
    Option (List Nat) × TrackInfo × MStream :=
  gremlin_scan (streamRemaining s) ti s

/-- tiertex_longtrack shares both operations with gremlin_longtrack
(longtrack.c lines 135-138); only the caller's prior-set type
distinguishes the two. -/
def tiertex_longtrack_write_raw : TrackInfo → MStream →
    Option (List Nat) × TrackInfo × MStream :=
  gremlin_longtrack_write_raw

/-- First loop of sevencities_longtrack_write_raw (longtrack.c lines
322-324): scan for sync 0x924a; stop on the sync or at end of stream
(the C code falls through either way). -/
def sevencities_find_trailing : Nat → MStream → MStream
  | 0, s => s
  | fuel+1, s =>
      match stream_next_bit s with
      | none => s
      | some s1 =>
          if s1.word % 65536 = 0x924a then s1
          else sevencities_find_trailing fuel s1

/-- Capture n raw bytes, ignoring end of stream as the C loop does
(longtrack.c lines 333-336): each byte is the low 8 bits of the shift
register after an unchecked 8-bit read. -/
def sevencities_capture : Nat → MStream → List Nat × MStream
  | 0, s => ([], s)
  | n+1, s =>
      let r := stream_next_bits_x 8 s
      let rest := sevencities_capture n r.2
      ((r.2.word % 256) :: rest.1, rest.2)

/-- Second loop of sevencities_longtrack_write_raw (longtrack.c lines
326-344): scan for sync 0x9251, reset the CRC, capture 122 raw bytes, and
accept when the running CRC-16/CCITT equals 0x010a. -/
def sevencities_scan : Nat → TrackInfo → MStream → Option (List Nat) × TrackInfo × MStream
  | 0, ti, s => (none, ti, s)
  | fuel+1, ti, s =>
      match stream_next_bit s with
      | none => (none, ti, s)
      | some s1 =>
          if s1.word % 65536 ≠ 0x9251 then sevencities_scan fuel ti s1
          else
            let r := sevencities_capture 122 (stream_start_crc s1)
            if r.2.crc ≠ 0x010a then sevencities_scan fuel ti r.2
            else (some r.1,
                  { ti with len := 122, data_bitoff := 76000,
                            total_bits := 101500 },
                  r.2)

/-- sevencities_longtrack_write_raw (longtrack.c lines 314-348). -/
def sevencities_longtrack_write_raw (ti : TrackInfo) (s : MStream) :
    Option (List Nat) × TrackInfo × MStream :=
  let s1 := sevencities_find_trailing (streamRemaining s) s
  sevencities_scan (streamRemaining s1) ti s1

/-- empty_longtrack_write_raw (longtrack.c lines 374-385): only a length
check; on success total_bits 110000 and the write splice at the index. -/
def empty_longtrack_write_raw (ti : TrackInfo) (s : MStream) :
    Option (List Nat) × TrackInfo × MStream :=
  if (check_length s 105000).1 = false then (none, ti, (check_length s 105000).2)
  else (some [],
        { ti with total_bits := 110000, data_bitoff := 110000 / 2 },
        (check_length s 105000).2)

/-- Alternating 1,0,1,0,... gap fill of n raw cells (MFM-encoded zeroes). -/
def gapFill (n : Nat) : List Bool := (List.range n).map (fun i => i % 2 = 0)

/-- Modelled from the spec: pad an emitted cell list to total raw bits. -/
def padTo (total : Nat) (bits : List Bool) : List Bool :=
  bits ++ gapFill (total - bits.length)

/-- Modelled from the spec: the stream a re-encoded track produces when
read back: the emitted cells padded to total_bits, replayed twice. -/
def trackStream (tb : TBuf) (total : Nat) : MStream :=
  mkStream [padTo total tb.bits, padTo total tb.bits]

/-- The raw bits of a byte list, 8 bits per byte, most significant first. -/
def bytesBits (bs : List Nat) : List Bool := (bs.map (natBitsMSB 8)).flatten

/-! ## General lemmas about the scan loops -/

/-- What the specification says check_sequence does: read n successive
16-bit MFM words and succeed iff every one of them decodes to the expected
byte.  Stated with the same stream primitives the code uses. -/
def check_sequence_as_specified : Nat → Nat → MStream → Bool
  | 0, _, _ => true
  | n+1, byte, s =>
      (mfm_decode_word (stream_next_bits_x 16 s).2.word % 256 == byte) &&
        check_sequence_as_specified n byte (stream_next_bits_x 16 s).2

theorem cs_aux_eq_spec (byte : Nat) :
    ∀ (k : Nat) (s : MStream),
      (check_sequence_aux byte k s).1 = check_sequence_as_specified k byte s := by
  intro k
  induction k with
  | zero => intro s; rfl
  | succ n ih =>
      intro s
      rw [check_sequence_aux, check_sequence_as_specified]
      by_cases h : mfm_decode_word (stream_next_bits_x 16 s).2.word % 256 = byte
      · rw [if_neg (by simpa using h), ih]
        simp [h]
      · rw [if_pos (by simpa using h)]
        simp [h]

theorem check_sequence_eq_aux (nr byte : Nat) (s : MStream)
    (h1 : 1 ≤ nr) (h2 : nr ≤ U32) :
    check_sequence nr byte s = check_sequence_aux byte (nr - 1) s := by
  have harith : (nr + (U32 - 1)) % U32 = nr - 1 := by
    simp only [U32] at h2 ⊢
    omega
  rw [check_sequence, harith]

/-- The capture loop always returns exactly n bytes. -/
theorem sevencities_capture_length :
    ∀ (n : Nat) (s : MStream), (sevencities_capture n s).1.length = n := by
  intro n
  induction n with
  | zero => intro s; rfl
  | succ k ih => intro s; simp [sevencities_capture, ih]

/-- A successful sevencities scan sets the three track-info fields to
their fixed constants and returns a 122-byte payload. -/
theorem sevencities_scan_success :
    ∀ (fuel : Nat) (ti : TrackInfo) (s : MStream) (d : List Nat)
      (ti' : TrackInfo) (s' : MStream),
      sevencities_scan fuel ti s = (some d, ti', s') →
      ti' = { ti with len := 122, data_bitoff := 76000, total_bits := 101500 }
        ∧ d.length = 122 := by
  intro fuel
  induction fuel with
  | zero => intro ti s d ti' s' h; simp [sevencities_scan] at h
  | succ n ih =>
      intro ti s d ti' s' h
      rw [sevencities_scan] at h
      split at h
      · simp at h
      · simp only at h
        split at h
        · exact ih _ _ _ _ _ h
        · split at h
          · exact ih _ _ _ _ _ h
          · simp only [Prod.mk.injEq] at h
            obtain ⟨h1, h2, h3⟩ := h
            refine ⟨h2.symm, ?_⟩
            simp only [Option.some.injEq] at h1
            rw [← h1]
            exact sevencities_capture_length 122 _

/-- A successful sevencities decode sets the three track-info fields to
their fixed constants. -/
theorem sevencities_write_success (ti : TrackInfo) (s : MStream)
    (d : List Nat) (ti' : TrackInfo) (s' : MStream)
    (h : sevencities_longtrack_write_raw ti s = (some d, ti', s')) :
    ti' = { ti with len := 122, data_bitoff := 76000, total_bits := 101500 }
      ∧ d.length = 122 := by
  unfold sevencities_longtrack_write_raw at h
  exact sevencities_scan_success _ _ _ _ _ _ h

/-- The payload result of the gremlin/tiertex scan does not depend on the
incoming track info. -/
theorem gremlin_scan_payload_indep :
    ∀ (fuel : Nat) (ti1 ti2 : TrackInfo) (s : MStream),
      (gremlin_scan fuel ti1 s).1 = (gremlin_scan fuel ti2 s).1 := by
  intro fuel
  induction fuel with
  | zero => intro ti1 ti2 s; rfl
  | succ n ih =>
      intro ti1 ti2 s
      rw [gremlin_scan, gremlin_scan]
      cases hnb : stream_next_bit s with
      | none => rfl
      | some s1 =>
          simp only
          split
          · exact ih _ _ _
          · split
            · exact ih _ _ _
            · rfl

/-- Through the gremlin/tiertex scan, on success total_bits is left alone
exactly for tiertex-tagged tracks and set to 105500 otherwise. -/
theorem gremlin_scan_total_bits :
    ∀ (fuel : Nat) (ti : TrackInfo) (s : MStream) (d : List Nat)
      (ti' : TrackInfo) (s' : MStream),
      gremlin_scan fuel ti s = (some d, ti', s') →
      (ti.type = TRKTYP_tiertex_longtrack → ti'.total_bits = ti.total_bits)
        ∧ (ti.type ≠ TRKTYP_tiertex_longtrack → ti'.total_bits = 105500) := by
  intro fuel
  induction fuel with
  | zero => intro ti s d ti' s' h; simp [gremlin_scan] at h
  | succ n ih =>
      intro ti s d ti' s' h
      rw [gremlin_scan] at h
      split at h
      · simp at h
      · simp only at h
        split at h
        · have H := ih _ _ _ _ _ h
          exact ⟨fun ht => H.1 ht, fun ht => H.2 ht⟩
        · split at h
          · have H := ih _ _ _ _ _ h
            exact ⟨fun ht => H.1 ht, fun ht => H.2 ht⟩
          · split at h
            · simp only [Prod.mk.injEq] at h
              obtain ⟨h1, h2, h3⟩ := h
              next hw hc ht =>
                constructor
                · intro ht2; exact absurd ht2 ht
                · intro _; rw [← h2]
            · simp only [Prod.mk.injEq] at h
              obtain ⟨h1, h2, h3⟩ := h
              next hw hc ht =>
                constructor
                · intro _; rw [← h2]
                · intro ht2
                  simp at ht
                  exact absurd ht ht2

/-! ## Claim C2: check_sequence -/

/-- Concrete stream for claim C2: a single 16-bit raw word 0x5555, which
MFM-decodes to byte 0xff. -/
def sC2 : MStream := mkStream [natBitsMSB 16 0x5555]

/-- C2, as stated, is false: check_sequence(s, 1, 0x00) succeeds without
reading anything, although the next (and only) MFM word of the stream
decodes to 0xff, not 0x00 -- the while (--nr) loop reads nr-1 words, not
nr. -/
theorem claim_C2_counterexample :
    ¬ (∀ (s : MStream) (n b : Nat), 1 ≤ n →
        ((check_sequence n b s).1 = true ↔
          check_sequence_as_specified n b s = true)) := by
  intro hcl
  have h2 := (hcl sC2 1 0 (le_refl 1)).mp (by decide)
  exact absurd h2 (by decide)

/-- C2 (amended): for 1 <= n (within the 32-bit counter range),
check_sequence(s, n, byte) reads up to n-1 successive 16-bit MFM words,
stopping at the first mismatch, and succeeds iff the first n-1 reads all
decode to byte. -/
theorem claim_C2 (s : MStream) (n b : Nat) (h1 : 1 ≤ n) (h2 : n ≤ U32) :
    (check_sequence n b s).1 = true ↔
      check_sequence_as_specified (n - 1) b s = true := by
  rw [check_sequence_eq_aux n b s h1 h2, cs_aux_eq_spec]

theorem claim_C2_witness :
    1 ≤ 2 ∧ 2 ≤ U32 ∧
      ((check_sequence 2 0xff sC2).1 = true ↔
        check_sequence_as_specified 1 0xff sC2 = true) :=
  ⟨by decide, by decide, claim_C2 sC2 2 0xff (by decide) (by decide)⟩

/-! ## Claim C8: tiertex_longtrack versus gremlin_longtrack -/

/-- C8: the tiertex decode is the gremlin decode, so a stream is accepted
by one iff by the other (whatever the incoming track infos); on success
the only behavioural difference is total_bits: left unchanged for a
tiertex-tagged track, set to 105500 for a gremlin-tagged track. -/
theorem claim_C8 :
    (∀ (ti1 ti2 : TrackInfo) (s : MStream),
        (tiertex_longtrack_write_raw ti1 s).1.isSome =
          (gremlin_longtrack_write_raw ti2 s).1.isSome)
  ∧ (∀ (ti : TrackInfo) (s : MStream) (d : List Nat) (ti' : TrackInfo)
        (s' : MStream), ti.type = TRKTYP_tiertex_longtrack →
        tiertex_longtrack_write_raw ti s = (some d, ti', s') →
        ti'.total_bits = ti.total_bits)
  ∧ (∀ (ti : TrackInfo) (s : MStream) (d : List Nat) (ti' : TrackInfo)
        (s' : MStream), ti.type = TRKTYP_gremlin_longtrack →
        gremlin_longtrack_write_raw ti s = (some d, ti', s') →
        ti'.total_bits = 105500) := by
  refine ⟨?_, ?_, ?_⟩
  · intro ti1 ti2 s
    exact congrArg Option.isSome (gremlin_scan_payload_indep _ ti1 ti2 s)
  · intro ti s d ti' s' ht h
    exact (gremlin_scan_total_bits _ _ _ _ _ _ h).1 ht
  · intro ti s d ti' s' ht h
    refine (gremlin_scan_total_bits _ _ _ _ _ _ h).2 ?_
    rw [ht]
    decide
  
/-- Concrete track infos and accepting stream for the C8 witness. -/
def tiC8t : TrackInfo :=
  { type := TRKTYP_tiertex_longtrack, dat := [], len := 0, nr_sectors := 0,
    bytes_per_sector := 0, valid_sectors := 0, data_bitoff := 0,
    total_bits := 777 }

def tiC8g : TrackInfo := { tiC8t with type := TRKTYP_gremlin_longtrack }

def sC8 : MStream :=
  mkStream [natBitsMSB 32 0x41244124 ++
    (List.replicate 7 (natBitsMSB 16 0xaaaa)).flatten]

theorem claim_C8_witness :
    ((tiertex_longtrack_write_raw tiC8t sC8).1.isSome =
       (gremlin_longtrack_write_raw tiC8g sC8).1.isSome)
  ∧ (tiertex_longtrack_write_raw tiC8t sC8).2.1.total_bits = tiC8t.total_bits
  ∧ (gremlin_longtrack_write_raw tiC8g sC8).2.1.total_bits = 105500 := by
  refine ⟨claim_C8.1 tiC8t tiC8g sC8, ?_, ?_⟩
  · have h1 : (tiertex_longtrack_write_raw tiC8t sC8).1 = some [] := by decide
    have heq : tiertex_longtrack_write_raw tiC8t sC8 =
        (some [], (tiertex_longtrack_write_raw tiC8t sC8).2.1,
         (tiertex_longtrack_write_raw tiC8t sC8).2.2) := by rw [← h1]
    exact claim_C8.2.1 tiC8t sC8 [] _ _ (by decide) heq
  · have h1 : (gremlin_longtrack_write_raw tiC8g sC8).1 = some [] := by decide
    have heq : gremlin_longtrack_write_raw tiC8g sC8 =
        (some [], (gremlin_longtrack_write_raw tiC8g sC8).2.1,
         (gremlin_longtrack_write_raw tiC8g sC8).2.2) := by rw [← h1]
    exact claim_C8.2.2 tiC8g sC8 [] _ _ (by decide) heq

/-! ## Claim C9: the data_bitoff < total_bits invariant -/

/-- Encoding-side track info for the C9 counterexample: an rtype_b track
whose (untypical but legal) length is 4 bytes, so that the record is
short. -/
def tiC9enc : TrackInfo :=
  { type := TRKTYP_rtype_b, dat := [0, 0, 0, 0], len := 4, nr_sectors := 1,
    bytes_per_sector := 4, valid_sectors := 0, data_bitoff := 0,
    total_bits := 0 }

def tiC9 : TrackInfo := { tiC9enc with dat := [] }

/-- The C9 counterexample stream: a valid rtype_b record whose sync word
straddles the index pulse, so that at the match the index offset is 1 and
the uint32 subtraction index_offset - 15 wraps around. -/
def sC9 : MStream :=
  mkStream [((rtype_b_read_mfm tiC9enc TBuf.empty).bits).take 15,
            ((rtype_b_read_mfm tiC9enc TBuf.empty).bits).drop 15]

/-- C9, as stated, is false: rtype_b's decode accepts this stream, sets
total_bits = 105500 > 0, and leaves data_bitoff = 2^32 - 14, far above
total_bits (the C code computes data_bitoff = index_offset - 15 in
unsigned arithmetic and the sync straddles the index pulse). -/
theorem claim_C9_counterexample :
    (rtype_b_write_mfm tiC9 sC9).1.isSome = true ∧
    0 < (rtype_b_write_mfm tiC9 sC9).2.1.total_bits ∧
    ¬ ((rtype_b_write_mfm tiC9 sC9).2.1.data_bitoff <
        (rtype_b_write_mfm tiC9 sC9).2.1.total_bits) :=
  ⟨by decide, by decide, by decide⟩

/-- C9 (amended): the invariant holds after the decodes that set
data_bitoff from a fixed constant, namely sevencities_longtrack
(76000 < 101500) and empty_longtrack (55000 < 110000); the sync-scanning
handlers instead record the sync position (index offset minus 15 or 31 in
32-bit arithmetic), which is not bounded by total_bits. -/
theorem claim_C9 :
    (∀ (ti : TrackInfo) (s : MStream) (d : List Nat) (ti' : TrackInfo)
        (s' : MStream),
        sevencities_longtrack_write_raw ti s = (some d, ti', s') →
        0 < ti'.total_bits ∧ ti'.data_bitoff < ti'.total_bits)
  ∧ (∀ (ti : TrackInfo) (s : MStream) (d : List Nat) (ti' : TrackInfo)
        (s' : MStream),
        empty_longtrack_write_raw ti s = (some d, ti', s') →
        0 < ti'.total_bits ∧ ti'.data_bitoff < ti'.total_bits) := by
  constructor
  · intro ti s d ti' s' h
    obtain ⟨hti, _⟩ := sevencities_write_success ti s d ti' s' h
    rw [hti]
    refine ⟨?_, ?_⟩
    · show (0 : Nat) < 101500
      decide
    · show (76000 : Nat) < 101500
      decide
  · intro ti s d ti' s' h
    unfold empty_longtrack_write_raw at h
    split at h
    · simp at h
    · simp only [Prod.mk.injEq] at h
      obtain ⟨h1, h2, h3⟩ := h
      rw [← h2]
      refine ⟨?_, ?_⟩
      · show (0 : Nat) < 110000
        decide
      · show (110000 / 2 : Nat) < 110000
        decide

/-- The 122-byte payload whose CRC-16/CCITT is 0x010a. -/
def pC9 : List Nat := List.replicate 120 0 ++ [0xba, 0xe4]

/-- A clean Seven Cities stream: trailing sync, leading sync, then the
122 payload bytes. -/
def sC9s : MStream :=
  mkStream [natBitsMSB 16 0x924a ++ natBitsMSB 16 0x9251 ++ bytesBits pC9]

/-- A stream whose single revolution is 105000 bits, all consumed. -/
def sC9e : MStream :=
  { fut := [], curLen := 105000, revs := [], word := 0,
    indexOffsetBc := 0, trackLenBc := 0, crc := 0 }

/-! ## Claim C10: decodes are not atomic on failure -/

/-- Incoming track info with a recognisable data_bitoff. -/
def tiC10 : TrackInfo :=
  { type := TRKTYP_gremlin_longtrack, dat := [], len := 0, nr_sectors := 0,
    bytes_per_sector := 0, valid_sectors := 0, data_bitoff := 12345,
    total_bits := 0 }

/-- A 40-bit stream with no gremlin sync at all. -/
def sC10g : MStream := mkStream [gapFill 40]

/-- A stream with the rtype sync followed by a bad (non-zero) filler word
and nothing else. -/
def sC10a : MStream :=
  mkStream [natBitsMSB 16 0x9521 ++ natBitsMSB 16 0xffff]

/-- C10: decodes are not atomic on failure: gremlin_longtrack's scan
writes a candidate data_bitoff on every iteration and rtype_a's scan
writes it as soon as the sync matches, so both can return null (track not
recognised) with the track info's data_bitoff already overwritten. -/
theorem claim_C10 :
    ((gremlin_longtrack_write_raw tiC10 sC10g).1 = none ∧
      (gremlin_longtrack_write_raw tiC10 sC10g).2.1.data_bitoff ≠
        tiC10.data_bitoff)
  ∧ ((rtype_a_write_mfm { tiC10 with type := TRKTYP_rtype_a, len := 4 }
        sC10a).1 = none ∧
      (rtype_a_write_mfm { tiC10 with type := TRKTYP_rtype_a, len := 4 }
        sC10a).2.1.data_bitoff ≠ 12345) :=
  ⟨⟨by decide, by decide⟩, ⟨by decide, by decide⟩⟩

/-! ## Symbolic stream execution

The value of a bit list (most significant first), the stream state after
consuming a run of bits that lies entirely inside the current revolution,
and the successive shift-register values seen along such a run. -/

def bitsVal (bs : List Bool) : Nat :=
  bs.foldl (fun a b => 2 * a + (if b then 1 else 0)) 0

/-- The stream state after consuming the run bs, where the current
revolution's remaining bits are bs ++ rest. -/
def afterRun (s : MStream) (bs rest : List Bool) : MStream :=
  { s with fut := rest,
           word := (s.word * 2 ^ bs.length + bitsVal bs) % U32,
           indexOffsetBc := s.indexOffsetBc + bs.length,
           crc := crc16_bits s.crc bs }

/-- The successive shift-register values along a run of consumed bits. -/
def runWords (w : Nat) : List Bool → List Nat
  | [] => []
  | b :: bs =>
      ((w * 2 + (if b then 1 else 0)) % U32) ::
        runWords ((w * 2 + (if b then 1 else 0)) % U32) bs

theorem bitsVal_go (a : Nat) (bs : List Bool) :
    bs.foldl (fun a b => 2 * a + (if b then 1 else 0)) a =
      a * 2 ^ bs.length + bitsVal bs := by
  induction bs generalizing a with
  | nil => simp [bitsVal]
  | cons b t ih =>
      simp only [List.foldl_cons, bitsVal, List.length_cons]
      rw [ih, ih (2 * 0 + (if b then 1 else 0))]
      ring

theorem bitsVal_cons (b : Bool) (t : List Bool) :
    bitsVal (b :: t) = (if b then 1 else 0) * 2 ^ t.length + bitsVal t := by
  simp only [bitsVal, List.foldl_cons]
  rw [bitsVal_go]
  simp [bitsVal]

theorem bitsVal_append (xs ys : List Bool) :
    bitsVal (xs ++ ys) = bitsVal xs * 2 ^ ys.length + bitsVal ys := by
  simp only [bitsVal, List.foldl_append]
  rw [bitsVal_go]
  rfl

theorem bitsVal_lt (bs : List Bool) : bitsVal bs < 2 ^ bs.length := by
  induction bs with
  | nil => simp [bitsVal]
  | cons b t ih =>
      rw [bitsVal_cons]
      have : 2 ^ (b :: t).length = 2 ^ t.length + 2 ^ t.length := by
        simp [List.length_cons, Nat.pow_succ]
        ring
      rw [this]
      cases b <;> simp <;> omega

theorem natBitsMSB_length (n v : Nat) : (natBitsMSB n v).length = n := by
  induction n generalizing v with
  | zero => rfl
  | succ k ih => simp [natBitsMSB, ih]

theorem bitsVal_natBitsMSB (n v : Nat) :
    bitsVal (natBitsMSB n v) = v % 2 ^ n := by
  induction n generalizing v with
  | zero =>
      simp [natBitsMSB, bitsVal]
      omega
  | succ k ih =>
      rw [natBitsMSB, bitsVal_cons, ih, natBitsMSB_length]
      rw [Nat.testBit_to_div_mod]
      have hms : v % 2 ^ (k + 1) = v % 2 ^ k + 2 ^ k * (v / 2 ^ k % 2) := by
        rw [Nat.pow_succ, Nat.mod_mul]
      rw [hms]
      have h2 := Nat.mod_two_eq_zero_or_one (v / 2 ^ k)
      rcases h2 with h | h
      · simp [h]
      · simp [h]
        omega

/-- One consuming step inside the current revolution. -/
theorem next_bit_cons (s : MStream) (b : Bool) (rest : List Bool)
    (h : s.fut = b :: rest) :
    stream_next_bit s = some { s with
      fut := rest,
      word := (s.word * 2 + (if b then 1 else 0)) % U32,
      indexOffsetBc := s.indexOffsetBc + 1,
      crc := crc16_step s.crc b } := by
  rw [stream_next_bit, h]

theorem afterRun_nil (s : MStream) (rest : List Bool) (h : s.fut = rest)
    (hw : s.word < U32) :
    afterRun s [] rest = s := by
  simp only [afterRun, bitsVal, List.length_nil, pow_zero, List.foldl_nil,
             mul_one, Nat.add_zero]
  rw [Nat.mod_eq_of_lt hw, ← h]
  cases s
  simp [crc16_bits]

theorem afterRun_cons (s : MStream) (b : Bool) (bs rest : List Bool) :
    afterRun s (b :: bs) rest =
      afterRun { s with fut := bs ++ rest,
                        word := (s.word * 2 + (if b then 1 else 0)) % U32,
                        indexOffsetBc := s.indexOffsetBc + 1,
                        crc := crc16_step s.crc b } bs rest := by
  show ({ s with
          fut := rest,
          word := (s.word * 2 ^ (b :: bs).length + bitsVal (b :: bs)) % U32,
          indexOffsetBc := s.indexOffsetBc + (b :: bs).length,
          crc := crc16_bits s.crc (b :: bs) } : MStream) =
       { s with
          fut := rest,
          word := (((s.word * 2 + (if b then 1 else 0)) % U32) * 2 ^ bs.length
                     + bitsVal bs) % U32,
          indexOffsetBc := s.indexOffsetBc + 1 + bs.length,
          crc := crc16_bits (crc16_step s.crc b) bs }
  have hword : (s.word * 2 ^ (b :: bs).length + bitsVal (b :: bs)) % U32 =
      (((s.word * 2 + (if b then 1 else 0)) % U32) * 2 ^ bs.length
         + bitsVal bs) % U32 := by
    conv_rhs => rw [Nat.add_mod, Nat.mod_mul_mod, ← Nat.add_mod]
    congr 1
    rw [bitsVal_cons, List.length_cons, Nat.pow_succ]
    ring
  have hidx : s.indexOffsetBc + (b :: bs).length =
      s.indexOffsetBc + 1 + bs.length := by
    rw [List.length_cons]
    omega
  rw [hword, hidx]
  rfl

theorem U32_pos : 0 < U32 := by decide

theorem afterRun_word_lt (s : MStream) (bs rest : List Bool) :
    (afterRun s bs rest).word < U32 :=
  Nat.mod_lt _ U32_pos

theorem bits_x_run :
    ∀ (bs rest : List Bool) (s : MStream), s.fut = bs ++ rest →
      s.word < U32 →
      stream_next_bits_x bs.length s = (true, afterRun s bs rest) := by
  intro bs
  induction bs with
  | nil =>
      intro rest s h hw
      rw [List.length_nil, stream_next_bits_x,
          afterRun_nil s rest (by simpa using h) hw]
  | cons b t ih =>
      intro rest s h hw
      rw [List.length_cons, stream_next_bits_x,
          next_bit_cons s b (t ++ rest) (by simpa using h)]
      rw [afterRun_cons]
      exact ih rest _ rfl (Nat.mod_lt _ U32_pos)

theorem afterRun_append (s : MStream) (xs ys rest : List Bool)
    (h : s.fut = xs ++ ys ++ rest) (hw : s.word < U32) :
    afterRun s (xs ++ ys) rest = afterRun (afterRun s xs (ys ++ rest)) ys rest := by
  induction xs generalizing s with
  | nil =>
      rw [List.nil_append, afterRun_nil s (ys ++ rest) (by simpa using h) hw]
  | cons x t ih =>
      rw [List.cons_append, afterRun_cons, afterRun_cons]
      exact ih _ (by simp) (Nat.mod_lt _ U32_pos)

theorem byte_of_chunk (w v : Nat) (hv : v < 256) :
    ((w * 2 ^ 8 + v) % U32) % 256 = v := by
  have h1 : (256 : Nat) ∣ U32 := by decide
  rw [Nat.mod_mod_of_dvd _ h1]
  have : w * 2 ^ 8 + v = 256 * w + v := by ring
  rw [this, Nat.mul_add_mod, Nat.mod_eq_of_lt hv]

theorem bytesBits_cons (b : Nat) (P : List Nat) :
    bytesBits (b :: P) = natBitsMSB 8 b ++ bytesBits P := by
  simp [bytesBits]

theorem runWords_cons (w : Nat) (b : Bool) (bs : List Bool) :
    runWords w (b :: bs) =
      ((w * 2 + (if b then 1 else 0)) % U32) ::
        runWords ((w * 2 + (if b then 1 else 0)) % U32) bs := rfl

/-- Generic skip lemma for the handler scan loops: as long as the match
condition M fails on every shift-register value along a run of bits that
stays inside the current revolution, a scan whose loop has step shape
hstep just advances across the run.  upd is how one non-matching
iteration rewrites the track info (overwriting, so only the last
application survives). -/
theorem scan_skip
    (S : Nat → TrackInfo → MStream → Option (List Nat) × TrackInfo × MStream)
    (M : Nat → Prop) (upd : TrackInfo → Nat → TrackInfo)
    (hstep : ∀ (fuel : Nat) (ti : TrackInfo) (s s1 : MStream),
      stream_next_bit s = some s1 → ¬ M s1.word →
      S (fuel + 1) ti s = S fuel (upd ti s1.indexOffsetBc) s1)
    (hupd : ∀ ti k1 k2, upd (upd ti k1) k2 = upd ti k2) :
    ∀ (bs rest : List Bool) (fuel : Nat) (ti : TrackInfo) (s : MStream),
      s.fut = bs ++ rest → s.word < U32 →
      (∀ w ∈ runWords s.word bs, ¬ M w) →
      S (bs.length + fuel) ti s =
        S fuel (if bs = [] then ti else upd ti (s.indexOffsetBc + bs.length))
          (afterRun s bs rest) := by
  intro bs
  induction bs with
  | nil =>
      intro rest fuel ti s h hw _
      rw [List.length_nil, Nat.zero_add, if_pos rfl,
          afterRun_nil s rest (by simpa using h) hw]
  | cons b t ih =>
      intro rest fuel ti s h hw hM
      have hnb := next_bit_cons s b (t ++ rest) (by simpa using h)
      have hm1 : ¬ M (((s.word * 2 + (if b then 1 else 0)) % U32)) := by
        apply hM
        rw [runWords_cons]
        simp
      have hstep1 : S (t.length + fuel + 1) ti s =
          S (t.length + fuel) (upd ti (s.indexOffsetBc + 1))
            { s with
              fut := t ++ rest,
              word := (s.word * 2 + (if b then 1 else 0)) % U32,
              indexOffsetBc := s.indexOffsetBc + 1,
              crc := crc16_step s.crc b } :=
        hstep (t.length + fuel) ti s _ hnb hm1
      have hM2 : ∀ w ∈ runWords ((s.word * 2 + (if b then 1 else 0)) % U32) t,
          ¬ M w := by
        intro w hwm
        apply hM
        rw [runWords_cons]
        simp [hwm]
      have hrec := ih rest fuel (upd ti (s.indexOffsetBc + 1))
        { s with
          fut := t ++ rest,
          word := (s.word * 2 + (if b then 1 else 0)) % U32,
          indexOffsetBc := s.indexOffsetBc + 1,
          crc := crc16_step s.crc b }
        rfl (Nat.mod_lt _ U32_pos) hM2
      rw [List.length_cons]
      have harith : t.length + 1 + fuel = t.length + fuel + 1 := by omega
      rw [harith, hstep1, hrec, ← afterRun_cons]
      have hproj : ({ s with
          fut := t ++ rest,
          word := (s.word * 2 + (if b then 1 else 0)) % U32,
          indexOffsetBc := s.indexOffsetBc + 1,
          crc := crc16_step s.crc b } : MStream).indexOffsetBc
          = s.indexOffsetBc + 1 := rfl
      by_cases ht : t = []
      · subst ht
        rw [if_pos rfl, if_neg (show ¬ ([b] = ([] : List Bool)) by simp)]
        simp
      · rw [if_neg ht, if_neg (show ¬ (b :: t = ([] : List Bool)) by simp),
            hproj, hupd]
        have harith2 : s.indexOffsetBc + 1 + t.length =
            s.indexOffsetBc + (t.length + 1) := by omega
        rw [harith2]

/-! ## Arithmetic of the MFM decode -/

theorem dropClock_zero_arg : ∀ n, dropClock n 0 = 0 := by
  intro n
  induction n with
  | zero => rfl
  | succ k ih => simp [dropClock, ih]

theorem dropClock_lt : ∀ (n w : Nat), dropClock n w < 2 ^ n := by
  intro n
  induction n with
  | zero => intro w; simp [dropClock]
  | succ k ih =>
      intro w
      rw [dropClock]
      have h1 := ih (w / 4)
      have h2 : w % 2 < 2 := Nat.mod_lt _ (by norm_num)
      rw [Nat.pow_succ]
      omega

theorem dropClock_mod_pow (m : Nat) :
    ∀ (n w : Nat), dropClock (n + m) w % 2 ^ n = dropClock n w := by
  intro n
  induction n with
  | zero => intro w; simp [dropClock, Nat.mod_one]
  | succ k ih =>
      intro w
      have harith : k + 1 + m = (k + m) + 1 := by omega
      rw [harith, dropClock, dropClock]
      have hx := ih (w / 4)
      have hlt := dropClock_lt (k + m) (w / 4)
      have hlt2 := dropClock_lt k (w / 4)
      have h2 : w % 2 < 2 := Nat.mod_lt _ (by norm_num)
      have hsplit : dropClock (k + m) (w / 4) =
          2 ^ k * (dropClock (k + m) (w / 4) / 2 ^ k) + dropClock k (w / 4) := by
        conv_lhs => rw [← Nat.div_add_mod (dropClock (k + m) (w / 4)) (2 ^ k)]
        rw [hx]
      rw [Nat.pow_succ]
      rw [hsplit]
      have : w % 2 + 2 * (2 ^ k * (dropClock (k + m) (w / 4) / 2 ^ k)
               + dropClock k (w / 4))
           = (w % 2 + 2 * dropClock k (w / 4))
               + (2 ^ k * 2) * (dropClock (k + m) (w / 4) / 2 ^ k) := by ring
      rw [this, Nat.add_mul_mod_self_left]
      exact Nat.mod_eq_of_lt (by omega)

theorem dropClock_mod_arg : ∀ (n w : Nat), dropClock n (w % 4 ^ n) = dropClock n w := by
  intro n
  induction n with
  | zero => intro w; rfl
  | succ k ih =>
      intro w
      rw [dropClock, dropClock]
      have h1 : w % 4 ^ (k + 1) % 2 = w % 2 := by
        rw [Nat.mod_mod_of_dvd]
        exact Dvd.dvd.trans (by norm_num) (dvd_pow_self 4 (Nat.succ_ne_zero k))
      have h2 : w % 4 ^ (k + 1) / 4 = w / 4 % 4 ^ k := by
        rw [Nat.pow_succ']
        exact Nat.mod_mul_right_div_self w 4 (4 ^ k)
      rw [h1, h2, ih]

theorem dropClock_hi_lo (m : Nat) :
    ∀ (n hi lo : Nat), lo < 4 ^ n →
      dropClock (m + n) (hi * 4 ^ n + lo) =
        dropClock n lo + 2 ^ n * dropClock m hi := by
  intro n
  induction n with
  | zero =>
      intro hi lo hlo
      interval_cases lo
      simp [dropClock]
  | succ k ih =>
      intro hi lo hlo
      have harith : m + (k + 1) = (m + k) + 1 := by omega
      rw [harith, dropClock, dropClock]
      have h1 : (hi * 4 ^ (k + 1) + lo) % 2 = lo % 2 := by
        have : (2 : Nat) ∣ hi * 4 ^ (k + 1) := by
          apply Dvd.dvd.mul_left
          exact Dvd.dvd.trans (by norm_num) (dvd_pow_self 4 (Nat.succ_ne_zero k))
        omega
      have h2 : (hi * 4 ^ (k + 1) + lo) / 4 = hi * 4 ^ k + lo / 4 := by
        rw [show hi * 4 ^ (k + 1) = 4 * (hi * 4 ^ k) by rw [Nat.pow_succ]; ring]
        rw [Nat.mul_add_div (by norm_num)]
      rw [h1, h2, ih hi (lo / 4) (by
        rw [Nat.pow_succ] at hlo
        omega)]
      rw [Nat.pow_succ]
      ring

theorem mfm_decode_word_mod256 (w : Nat) :
    mfm_decode_word w % 256 = dropClock 8 (w % 65536) := by
  rw [mfm_decode_word, show (16 : Nat) = 8 + 8 from rfl,
      show (256 : Nat) = 2 ^ 8 from rfl, dropClock_mod_pow]
  rw [← dropClock_mod_arg]
  norm_num

theorem mfm_decode_word_16 (v : Nat) (hv : v < 65536) :
    mfm_decode_word v = dropClock 8 v := by
  rw [mfm_decode_word, show (16 : Nat) = 8 + 8 from rfl]
  have h := dropClock_hi_lo 8 8 (v / 4 ^ 8) (v % 4 ^ 8) (Nat.mod_lt _ (by norm_num))
  rw [Nat.div_add_mod'] at h
  rw [show (8 : Nat) + 8 = 8 + 8 from rfl, h]
  have hz : v / 4 ^ 8 = 0 := Nat.div_eq_of_lt (by norm_num; omega)
  rw [hz, dropClock_zero_arg, Nat.mul_zero, Nat.add_zero, ← dropClock_mod_arg,
      Nat.mod_eq_of_lt (by norm_num; omega), dropClock_mod_arg]

/-- Reading a chunk of k bits leaves its value in the low k bits of the
shift register. -/
theorem chunk_mod (w v k : Nat) (hk : (2 ^ k : Nat) ∣ U32) (hv : v < 2 ^ k) :
    ((w * 2 ^ k + v) % U32) % 2 ^ k = v := by
  rw [Nat.mod_mod_of_dvd _ hk, Nat.mul_comm, Nat.mul_add_mod, Nat.mod_eq_of_lt hv]

theorem mfmEncodeBits_length (prev : Bool) :
    ∀ (n v : Nat), (mfmEncodeBits prev n v).length = 2 * n := by
  intro n
  induction n generalizing prev with
  | zero => intro v; rfl
  | succ k ih =>
      intro v
      simp only [mfmEncodeBits, List.length_cons, ih]
      omega

/-- Decoding a single MFM-encoded byte recovers the byte, whatever the
preceding clock state. -/
theorem mfm_byte_decode : ∀ (b : Nat), b < 256 → ∀ (prev : Bool),
    dropClock 8 (bitsVal (mfmEncodeBits prev 8 b)) = b := by decide

/-- check_sequence_aux succeeds across a list of 16-bit word chunks that
each decode to the expected byte. -/
theorem cs_aux_words (byte : Nat) (hb : byte < 256) :
    ∀ (ws : List (List Bool)) (rest : List Bool) (s : MStream),
      s.fut = ws.flatten ++ rest → s.word < U32 →
      (∀ w ∈ ws, w.length = 16 ∧ dropClock 8 (bitsVal w) = byte) →
      check_sequence_aux byte ws.length s =
        (true, afterRun s ws.flatten rest) := by
  intro ws
  induction ws with
  | nil =>
      intro rest s h hw _
      have hfl : (List.flatten ([] : List (List Bool))) = [] := rfl
      rw [List.length_nil, check_sequence_aux, hfl,
          afterRun_nil s rest (by simpa [hfl] using h) hw]
  | cons c t ih =>
      intro rest s h hw hok
      obtain ⟨hlen, hdec⟩ := hok c (by simp)
      have hfut : s.fut = c ++ (t.flatten ++ rest) := by
        rw [h, List.flatten_cons, List.append_assoc]
      have h16 : stream_next_bits_x 16 s =
          (true, afterRun s c (t.flatten ++ rest)) := by
        have := bits_x_run c _ s hfut hw
        rwa [hlen] at this
      have hdecw : mfm_decode_word
          (afterRun s c (t.flatten ++ rest)).word % 256 = byte := by
        rw [mfm_decode_word_mod256]
        have hvlt : bitsVal c < 65536 := by
          have := bitsVal_lt c
          rw [hlen] at this
          exact this
        have hmod : (afterRun s c (t.flatten ++ rest)).word % 65536
            = bitsVal c := by
          simp only [afterRun, hlen]
          exact chunk_mod s.word (bitsVal c) 16 (by decide) hvlt
        rw [hmod, hdec]
      rw [List.length_cons, check_sequence_aux, h16]
      simp only
      rw [if_neg (by simp [hdecw])]
      rw [ih (rest) _ rfl (afterRun_word_lt _ _ _)
            (fun w hwm => hok w (by simp [hwm]))]
      rw [List.flatten_cons,
          afterRun_append s _ _ rest (by simpa using hfut) hw]

/-! ## Step equations of the scan loops (the non-matching iteration) -/

theorem protec_scan_step (fuel : Nat) (ti : TrackInfo) (s s1 : MStream)
    (h : stream_next_bit s = some s1) (hm : ¬ (s1.word / 65536 = 0x4454)) :
    protec_scan (fuel + 1) ti s =
      protec_scan fuel { ti with data_bitoff := wsub s1.indexOffsetBc 31 } s1 := by
  rw [protec_scan, h]
  simp only
  rw [if_pos hm]

theorem sevencities_scan_step (fuel : Nat) (ti : TrackInfo) (s s1 : MStream)
    (h : stream_next_bit s = some s1) (hm : ¬ (s1.word % 65536 = 0x9251)) :
    sevencities_scan (fuel + 1) ti s = sevencities_scan fuel ti s1 := by
  rw [sevencities_scan, h]
  simp only
  rw [if_pos hm]

theorem bitoff_upd_collapse (c : Nat) (ti : TrackInfo) (k1 k2 : Nat) :
    ({ ({ ti with data_bitoff := wsub k1 c }) with
       data_bitoff := wsub k2 c } : TrackInfo) =
      { ti with data_bitoff := wsub k2 c } := rfl

/-! ## Layout of the re-encoded tracks -/

/-- The raw cells of one MFM-encoded byte repeated n times (the clock
state reaches the byte's low bit after the first copy). -/
def repChunks (prev : Bool) (b : Nat) : Nat → List (List Bool)
  | 0 => []
  | n+1 => mfmEncodeBits prev 8 b :: repChunks (b.testBit 0) b n

theorem tbuf_rep_bits (b : Nat) :
    ∀ (n : Nat) (tb : TBuf),
      tbuf_rep_mfm_byte tb b n =
        { bits := tb.bits ++ (repChunks tb.prev b n).flatten,
          prev := if n = 0 then tb.prev else b.testBit 0 } := by
  intro n
  induction n with
  | zero => intro tb; simp [tbuf_rep_mfm_byte, repChunks]
  | succ k ih =>
      intro tb
      rw [tbuf_rep_mfm_byte, ih, repChunks]
      simp only [tbuf_bits_mfm, List.flatten_cons, List.append_assoc]
      by_cases hk : k = 0
      · subst hk
        simp [repChunks]
      · simp [if_neg hk]

theorem repChunks_stable (b : Nat) :
    ∀ (n : Nat), repChunks (b.testBit 0) b n =
      List.replicate n (mfmEncodeBits (b.testBit 0) 8 b) := by
  intro n
  induction n with
  | zero => rfl
  | succ k ih => rw [repChunks, ih, List.replicate_succ]

theorem repChunks_flatten_length (prev : Bool) (b : Nat) :
    ∀ (n : Nat), ((repChunks prev b n).flatten).length = 16 * n := by
  intro n
  induction n generalizing prev with
  | zero => rfl
  | succ k ih =>
      rw [repChunks, List.flatten_cons, List.length_append,
          mfmEncodeBits_length, ih]
      omega

theorem gapFill_length (n : Nat) : (gapFill n).length = n := by
  simp [gapFill]

theorem padTo_length (total : Nat) (bs : List Bool) :
    (padTo total bs).length = bs.length + (total - bs.length) := by
  simp [padTo, gapFill_length]

theorem replicate_all_mem {α : Type} (x : α) (n : Nat) (P : α → Prop)
    (hP : P x) : ∀ y ∈ List.replicate n x, P y := by
  intro y hy
  rw [List.eq_of_mem_replicate hy]
  exact hP

@[simp] theorem afterRun_fut (s : MStream) (bs rest : List Bool) :
    (afterRun s bs rest).fut = rest := rfl

@[simp] theorem afterRun_revs (s : MStream) (bs rest : List Bool) :
    (afterRun s bs rest).revs = s.revs := rfl

@[simp] theorem afterRun_curLen (s : MStream) (bs rest : List Bool) :
    (afterRun s bs rest).curLen = s.curLen := rfl

theorem afterRun_word (s : MStream) (bs rest : List Bool) :
    (afterRun s bs rest).word =
      (s.word * 2 ^ bs.length + bitsVal bs) % U32 := rfl

theorem afterRun_idx (s : MStream) (bs rest : List Bool) :
    (afterRun s bs rest).indexOffsetBc = s.indexOffsetBc + bs.length := rfl

/-- The successful protec iteration: sync matched, the filler sequence
checked out, and the revolution is long enough. -/
theorem protec_scan_match_success (fuel : Nat) (ti : TrackInfo)
    (s s1 s2 : MStream)
    (h : stream_next_bit s = some s1) (hm : s1.word / 65536 = 0x4454)
    (hcs : check_sequence 1000 (mfm_decode_word s1.word % 256) s1 = (true, s2))
    (hcl : 107200 ≤ (stream_next_index s2).trackLenBc) :
    protec_scan (fuel + 1) ti s =
      (some [mfm_decode_word s1.word % 256],
       { ti with data_bitoff := wsub s1.indexOffsetBc 31,
                 total_bits := 110000, len := 1 },
       stream_next_index s2) := by
  rw [protec_scan, h]
  simp only
  rw [if_neg (not_not_intro hm), hcs]
  simp only [Bool.not_true, if_neg (by simp : ¬ ((false : Bool) = true))]
  rw [check_length]
  simp [hcl]

/-- The fatal protec iteration: sync and filler matched but the
revolution is too short -- the handler gives up entirely. -/
theorem protec_scan_match_gate (fuel : Nat) (ti : TrackInfo)
    (s s1 s2 : MStream)
    (h : stream_next_bit s = some s1) (hm : s1.word / 65536 = 0x4454)
    (hcs : check_sequence 1000 (mfm_decode_word s1.word % 256) s1 = (true, s2))
    (hcl : (stream_next_index s2).trackLenBc < 107200) :
    protec_scan (fuel + 1) ti s =
      (none,
       { ti with data_bitoff := wsub s1.indexOffsetBc 31 },
       stream_next_index s2) := by
  rw [protec_scan, h]
  simp only
  rw [if_neg (not_not_intro hm), hcs]
  simp only [Bool.not_true, if_neg (by simp : ¬ ((false : Bool) = true))]
  rw [check_length]
  have hng : ¬ (107200 ≤ (stream_next_index s2).trackLenBc) := by omega
  simp [hng]

theorem next_index_cons (s : MStream) (r : List Bool) (rs : List (List Bool))
    (h : s.revs = r :: rs) :
    stream_next_index s =
      { s with fut := r, curLen := r.length, revs := rs,
               trackLenBc := s.curLen, indexOffsetBc := 0 } := by
  rw [stream_next_index, h]

theorem drop_one_of_length {α : Type} (l : List α) (n : Nat)
    (h : l.length = n + 1) : ∃ x, l.drop n = [x] := by
  have h1 : (l.drop n).length = 1 := by simp [h]
  match hd : l.drop n with
  | [x] => exact ⟨x, rfl⟩
  | [] => rw [hd] at h1; simp at h1
  | x :: y :: t => rw [hd] at h1; simp at h1

/-- No spurious protec sync can fire during the first 31 raw cells of a
re-encoded protec track, whatever the filler byte. -/
theorem protec_no_early : ∀ (b : Nat), b < 256 → ∀ (prev : Bool),
    ∀ w ∈ runWords 0
        (natBitsMSB 16 0x4454 ++ List.take 15 (mfmEncodeBits prev 8 b)),
      ¬ (w / 65536 = 0x4454) := by decide

/-- Protec round-trip: re-encoding a stored filler byte and rescanning it
recovers exactly that byte, with the canonical track geometry. -/

theorem protec_roundtrip (b : Nat) (hb : b < 256) (ti tie : TrackInfo)
    (hdat : tie.dat = [b]) :
    (protec_longtrack_write_raw ti
        (trackStream (protec_longtrack_read_raw tie TBuf.empty) 110000)).1 =
      some [b] ∧
    (protec_longtrack_write_raw ti
        (trackStream (protec_longtrack_read_raw tie TBuf.empty) 110000)).2.1 =
      { ti with data_bitoff := 1, total_bits := 110000, len := 1 } := by
  have henc : protec_longtrack_read_raw tie TBuf.empty =
      { bits := natBitsMSB 16 0x4454 ++ (repChunks false b 6000).flatten,
        prev := b.testBit 0 } := by
    rw [protec_longtrack_read_raw, hdat]
    have hraw : tbuf_bits_raw TBuf.empty 16 0x4454 =
        { bits := natBitsMSB 16 0x4454, prev := false } := by
      simp [tbuf_bits_raw, TBuf.empty]
    rw [show ([b] : List Nat).headD 0 = b from rfl, hraw, tbuf_rep_bits]
    simp
  set chunk1 : List Bool := mfmEncodeBits false 8 b with hchunk1
  set chunkS : List Bool := mfmEncodeBits (b.testBit 0) 8 b with hchunkS
  have hch1len : chunk1.length = 16 := by rw [hchunk1, mfmEncodeBits_length]
  have hchSlen : chunkS.length = 16 := by rw [hchunkS, mfmEncodeBits_length]
  have hrep : (repChunks false b 6000).flatten =
      chunk1 ++ (List.replicate 5999 chunkS).flatten := by
    rw [show (6000 : Nat) = 5999 + 1 from rfl, repChunks, List.flatten_cons,
        repChunks_stable]
  have hencbits : (protec_longtrack_read_raw tie TBuf.empty).bits.length
      = 96016 := by
    rw [henc]
    show (natBitsMSB 16 0x4454 ++ (repChunks false b 6000).flatten).length = 96016
    rw [List.length_append, natBitsMSB_length, repChunks_flatten_length]
  set R : List Bool :=
    padTo 110000 (protec_longtrack_read_raw tie TBuf.empty).bits with hR
  have hRlen : R.length = 110000 := by
    rw [hR, padTo_length, hencbits]
  have hchunksplit : chunk1 = List.take 15 chunk1 ++ List.drop 15 chunk1 :=
    (List.take_append_drop 15 chunk1).symm
  set bs31 : List Bool := natBitsMSB 16 0x4454 ++ List.take 15 chunk1 with hbs31
  set bigrest : List Bool := (List.replicate 999 chunkS).flatten ++
      ((List.replicate 5000 chunkS).flatten ++ gapFill 13984) with hbigrest
  have hRdecomp : R = bs31 ++ (List.drop 15 chunk1 ++ bigrest) := by
    rw [hR, padTo, hencbits, henc, hbs31, hbigrest]
    show natBitsMSB 16 0x4454 ++ (repChunks false b 6000).flatten
        ++ gapFill 13984 = _
    rw [hrep]
    rw [show (5999 : Nat) = 999 + 5000 from rfl, List.replicate_add,
        List.flatten_append]
    conv_lhs => rw [hchunksplit]
    simp only [List.append_assoc]
  have hlen31 : bs31.length = 31 := by
    rw [hbs31, List.length_append, natBitsMSB_length, List.length_take,
        hch1len]
    omega
  -- the stream
  set s0 : MStream := { fut := R, curLen := R.length, revs := [R], word := 0,
                        indexOffsetBc := 0, trackLenBc := 0, crc := 0xffff }
    with hs0
  have hts : trackStream (protec_longtrack_read_raw tie TBuf.empty) 110000
      = s0 := by
    rw [trackStream, mkStream, hs0, hR]
  rw [hts, protec_longtrack_write_raw]
  have hrem : streamRemaining s0 = 31 + (219968 + 1) := by
    rw [hs0]
    show R.length + (([R].map List.length).sum) = 31 + (219968 + 1)
    rw [List.map_cons, List.map_nil, List.sum_cons, List.sum_nil, hRlen]
    norm_num
  rw [hrem]
  -- skip the first 31 cells
  have hfut0 : s0.fut = bs31 ++ (List.drop 15 chunk1 ++ bigrest) := by
    rw [hs0]
    exact hRdecomp
  have hM : ∀ w ∈ runWords s0.word bs31, ¬ (w / 65536 = 0x4454) := by
    rw [hs0, hbs31, hchunk1]
    exact protec_no_early b hb false
  have hskip := scan_skip protec_scan (fun w => w / 65536 = 0x4454)
    (fun t k => { t with data_bitoff := wsub k 31 })
    (fun fuel t s s1 h hm => protec_scan_step fuel t s s1 h hm)
    (fun t k1 k2 => bitoff_upd_collapse 31 t k1 k2)
    bs31 (List.drop 15 chunk1 ++ bigrest) (219968 + 1) ti s0
    hfut0 (by rw [hs0]; norm_num [U32]) hM
  rw [hlen31] at hskip
  rw [hskip, if_neg (show ¬ (bs31 = []) by
    intro hcontra
    rw [hcontra] at hlen31
    simp at hlen31)]

  obtain ⟨x15, hx15⟩ := drop_one_of_length chunk1 15 (by rw [hch1len])
  set s31 : MStream := afterRun s0 bs31 (List.drop 15 chunk1 ++ bigrest)
    with hs31
  have hfut31 : s31.fut = x15 :: bigrest := by
    rw [hs31, afterRun_fut, hx15]
    rfl
  have hnb := next_bit_cons s31 x15 bigrest hfut31
  have hw31 : s31.word = bitsVal bs31 := by
    rw [hs31, afterRun_word, hs0, hlen31]
    show (0 * 2 ^ 31 + bitsVal bs31) % U32 = bitsVal bs31
    rw [Nat.zero_mul, Nat.zero_add]
    refine Nat.mod_eq_of_lt ?_
    have := bitsVal_lt bs31
    rw [hlen31] at this
    calc bitsVal bs31 < 2 ^ 31 := this
    _ < U32 := by norm_num [U32]
  have hsing : bitsVal [x15] = (if x15 then 1 else 0) := by
    cases x15 <;> rfl
  have hvlt : bitsVal chunk1 < 65536 := by
    have := bitsVal_lt chunk1
    rw [hch1len] at this
    exact this
  have hl32val : bitsVal bs31 * 2 + (if x15 then 1 else 0) =
      0x4454 * 65536 + bitsVal chunk1 := by
    have h1 : bitsVal (bs31 ++ [x15]) =
        bitsVal bs31 * 2 + (if x15 then 1 else 0) := by
      rw [bitsVal_append, hsing]
      norm_num
    have h2 : bs31 ++ [x15] = natBitsMSB 16 0x4454 ++ chunk1 := by
      rw [hbs31, List.append_assoc, ← hx15, List.take_append_drop]
    have h3 : bitsVal (natBitsMSB 16 0x4454 ++ chunk1) =
        0x4454 * 65536 + bitsVal chunk1 := by
      rw [bitsVal_append, bitsVal_natBitsMSB, hch1len]
      norm_num
    rw [← h1, h2, h3]
  have hw32 : ((s31.word * 2 + (if x15 then 1 else 0)) % U32) =
      0x4454 * 65536 + bitsVal chunk1 := by
    rw [hw31, hl32val]
    refine Nat.mod_eq_of_lt ?_
    have : (0x4454 * 65536 : Nat) + 65536 ≤ U32 := by norm_num [U32]
    omega
  have hm32 : ((s31.word * 2 + (if x15 then 1 else 0)) % U32) / 65536
      = 0x4454 := by
    rw [hw32, Nat.mul_comm, Nat.mul_add_div (by norm_num)]
    rw [Nat.div_eq_of_lt hvlt]
  have hbyte : mfm_decode_word ((s31.word * 2 + (if x15 then 1 else 0)) % U32)
      % 256 = b := by
    rw [mfm_decode_word_mod256, hw32, Nat.mul_comm, Nat.mul_add_mod,
        Nat.mod_eq_of_lt hvlt, hchunk1]
    exact mfm_byte_decode b hb false

  set s32 : MStream := { s31 with
      fut := bigrest,
      word := (s31.word * 2 + (if x15 then 1 else 0)) % U32,
      indexOffsetBc := s31.indexOffsetBc + 1,
      crc := crc16_step s31.crc x15 } with hs32
  have hproj : s32.word = (s31.word * 2 + (if x15 then 1 else 0)) % U32 := rfl
  have hm32x : s32.word / 65536 = 0x4454 := by
    rw [hproj]
    exact hm32
  have hbyte32 : mfm_decode_word s32.word % 256 = b := by
    rw [hproj]
    exact hbyte
  have hfut32 : s32.fut = (List.replicate 999 chunkS).flatten ++
      ((List.replicate 5000 chunkS).flatten ++ gapFill 13984) := by
    show bigrest = _
    rw [hbigrest]
  have hw32lt : s32.word < U32 := by
    rw [hproj]
    exact Nat.mod_lt _ (by norm_num [U32])
  have hcsb := cs_aux_words b hb (List.replicate 999 chunkS)
    ((List.replicate 5000 chunkS).flatten ++ gapFill 13984) s32
    hfut32 hw32lt
    (replicate_all_mem chunkS 999
      (fun w => w.length = 16 ∧ dropClock 8 (bitsVal w) = b)
      ⟨hchSlen, by rw [hchunkS]; exact mfm_byte_decode b hb (b.testBit 0)⟩)
  rw [List.length_replicate] at hcsb
  set s2 : MStream := afterRun s32 ((List.replicate 999 chunkS).flatten)
      ((List.replicate 5000 chunkS).flatten ++ gapFill 13984) with hs2
  have hcs : check_sequence 1000 (mfm_decode_word s32.word % 256) s32 =
      (true, s2) := by
    rw [hbyte32, check_sequence_eq_aux 1000 b s32 (by norm_num)
      (by norm_num [U32])]
    show check_sequence_aux b 999 s32 = (true, s2)
    exact hcsb
  have hrevs2 : s2.revs = [R] := by
    rw [hs2, afterRun_revs]
    show s31.revs = [R]
    rw [hs31, afterRun_revs, hs0]
  have hcur2 : s2.curLen = 110000 := by
    have e1 : s2.curLen = s32.curLen := by
      rw [hs2, afterRun_curLen]
    have e2 : s32.curLen = s31.curLen := by
      rw [hs32]
    have e3 : s31.curLen = s0.curLen := by
      rw [hs31, afterRun_curLen]
    have e4 : s0.curLen = R.length := by
      rw [hs0]
    rw [e1, e2, e3, e4, hRlen]
  have hni := next_index_cons s2 R [] hrevs2
  have htl : (stream_next_index s2).trackLenBc = s2.curLen := by
    rw [hni]
  have hcl : 107200 ≤ (stream_next_index s2).trackLenBc := by
    rw [htl, hcur2]
    norm_num
  rw [protec_scan_match_success 219968 _ s31 s32 s2 hnb hm32x hcs hcl]
  have hidx32 : s32.indexOffsetBc = 32 := by
    show s31.indexOffsetBc + 1 = 32
    rw [hs31, afterRun_idx, hlen31, hs0]
  have hws : wsub 32 31 = 1 := by
    norm_num [wsub, U32]
  refine ⟨?_, ?_⟩
  · show some [mfm_decode_word s32.word % 256] = some [b]
    rw [hbyte32]
  · show ({ ti with
        data_bitoff := wsub s32.indexOffsetBc 31, total_bits := 110000,
        len := 1 } : TrackInfo) =
      { ti with
        data_bitoff := 1, total_bits := 110000, len := 1 }
    rw [hidx32, hws]

/-- Protec encoder layout: a raw 0x4454 sync word followed by 6000
MFM-encoded copies of the stored byte. -/
theorem protec_encode_layout (tie : TrackInfo) (b : Nat)
    (hdat : tie.dat = [b]) :
    protec_longtrack_read_raw tie TBuf.empty =
      { bits := natBitsMSB 16 0x4454 ++ (repChunks false b 6000).flatten,
        prev := b.testBit 0 } := by
  rw [protec_longtrack_read_raw, hdat]
  have hraw : tbuf_bits_raw TBuf.empty 16 0x4454 =
      { bits := natBitsMSB 16 0x4454, prev := false } := by
    simp [tbuf_bits_raw, TBuf.empty]
  rw [show ([b] : List Nat).headD 0 = b from rfl, hraw, tbuf_rep_bits]
  simp

def tiC7 : TrackInfo :=
  { type := TRKTYP_protec_longtrack, dat := [0x44], len := 1, nr_sectors := 0,
    bytes_per_sector := 0, valid_sectors := 0, data_bitoff := 0,
    total_bits := 110000 }

/-- C7: protec_longtrack's decode takes the byte decoded from the first
post-sync MFM word as the payload (whatever repeated value it is, 0x44
included, not only 0x33); the re-encode emits the stored byte as the
repeated filler after the sync; and for every byte value the
encode-then-decode round trip stores exactly that byte. -/
theorem claim_C7 :
    (∀ (fuel : Nat) (ti : TrackInfo) (s s1 s2 : MStream),
        stream_next_bit s = some s1 → s1.word / 65536 = 0x4454 →
        check_sequence 1000 (mfm_decode_word s1.word % 256) s1 = (true, s2) →
        107200 ≤ (stream_next_index s2).trackLenBc →
        (protec_scan (fuel + 1) ti s).1 =
          some [mfm_decode_word s1.word % 256])
  ∧ (∀ (tie : TrackInfo) (b : Nat), tie.dat = [b] →
        (protec_longtrack_read_raw tie TBuf.empty).bits =
          natBitsMSB 16 0x4454 ++ (repChunks false b 6000).flatten)
  ∧ (∀ (b : Nat), b < 256 → ∀ (ti tie : TrackInfo), tie.dat = [b] →
        (protec_longtrack_write_raw ti
            (trackStream (protec_longtrack_read_raw tie TBuf.empty)
              110000)).1 = some [b]) := by
  refine ⟨?_, ?_, ?_⟩
  · intro fuel ti s s1 s2 h hm hcs hcl
    rw [protec_scan_match_success fuel ti s s1 s2 h hm hcs hcl]
  · intro tie b hdat
    rw [protec_encode_layout tie b hdat]
  · intro b hb ti tie hdat
    exact (protec_roundtrip b hb ti tie hdat).1

theorem claim_C7_witness :
    (protec_longtrack_write_raw tiC7
        (trackStream (protec_longtrack_read_raw tiC7 TBuf.empty)
          110000)).1 = some [0x44] :=
  claim_C7.2.2 0x44 (by decide) tiC7 tiC7 rfl

def tiC3 : TrackInfo :=
  { type := TRKTYP_protec_longtrack, dat := [], len := 0, nr_sectors := 0,
    bytes_per_sector := 0, valid_sectors := 0, data_bitoff := 0,
    total_bits := 0 }

def sC3 : MStream :=
  { fut := false :: (List.replicate 999 (List.replicate 16 false)).flatten,
    curLen := 100, revs := [[]], word := 0x222A0000, indexOffsetBc := 0,
    trackLenBc := 0, crc := 0xffff }

def sC3a : MStream :=
  { sC3 with
    fut := (List.replicate 999 (List.replicate 16 false)).flatten,
    word := 0x44540000, indexOffsetBc := 1, crc := crc16_step 0xffff false }

/-- C3: once protec_longtrack's scan has matched the 0x4454 sync and the
999-word filler sequence, a measured revolution length below 107200 bits
makes the whole scan return none at once, no matter how much fuel (stream)
remains -- it never resumes looking for another sync. -/
theorem claim_C3 (fuel : Nat) (ti : TrackInfo) (s s1 s2 : MStream)
    (h : stream_next_bit s = some s1) (hm : s1.word / 65536 = 0x4454)
    (hcs : check_sequence 1000 (mfm_decode_word s1.word % 256) s1 = (true, s2))
    (hcl : (stream_next_index s2).trackLenBc < 107200) :
    (protec_scan (fuel + 1) ti s).1 = none := by
  rw [protec_scan_match_gate fuel ti s s1 s2 h hm hcs hcl]

theorem claim_C3_witness : (protec_scan (5 + 1) tiC3 sC3).1 = none := by
  have h : stream_next_bit sC3 = some sC3a := rfl
  have hm : sC3a.word / 65536 = 0x4454 := by decide
  have hbyte : mfm_decode_word sC3a.word % 256 = 0 := by decide
  have hfut1 : sC3a.fut =
      (List.replicate 999 (List.replicate 16 false)).flatten ++ [] := by
    rw [List.append_nil]
    rfl
  have h999 := cs_aux_words 0 (by decide)
    (List.replicate 999 (List.replicate 16 false)) [] sC3a hfut1 (by decide)
    (replicate_all_mem (List.replicate 16 false) 999
      (fun w => w.length = 16 ∧ dropClock 8 (bitsVal w) = 0)
      ⟨by decide, by decide⟩)
  rw [List.length_replicate] at h999
  have hcs : check_sequence 1000 (mfm_decode_word sC3a.word % 256) sC3a =
      (true, afterRun sC3a
        (List.replicate 999 (List.replicate 16 false)).flatten []) := by
    rw [hbyte, check_sequence_eq_aux 1000 0 sC3a (by norm_num)
      (by norm_num [U32])]
    exact h999
  have hrevs : (afterRun sC3a
      (List.replicate 999 (List.replicate 16 false)).flatten []).revs =
      [[]] := by
    rw [afterRun_revs]
    rfl
  have htl := next_index_cons
    (afterRun sC3a (List.replicate 999 (List.replicate 16 false)).flatten [])
    [] [] hrevs
  have hcl : (stream_next_index (afterRun sC3a
      (List.replicate 999 (List.replicate 16 false)).flatten [])).trackLenBc
      < 107200 := by
    rw [htl]
    show (afterRun sC3a
      (List.replicate 999 (List.replicate 16 false)).flatten []).curLen
      < 107200
    rw [afterRun_curLen]
    show (100 : Nat) < 107200
    decide
  exact claim_C3 5 tiC3 sC3 sC3a
    (afterRun sC3a (List.replicate 999 (List.replicate 16 false)).flatten [])
    h hm hcs hcl

@[simp] theorem afterRun_crc (s : MStream) (bs rest : List Bool) :
    (afterRun s bs rest).crc = crc16_bits s.crc bs := rfl

theorem crc16_bits_append (c : Nat) (xs ys : List Bool) :
    crc16_bits c (xs ++ ys) = crc16_bits (crc16_bits c xs) ys := by
  simp [crc16_bits, List.foldl_append]

theorem bytesBits_append (xs ys : List Nat) :
    bytesBits (xs ++ ys) = bytesBits xs ++ bytesBits ys := by
  simp [bytesBits]

theorem bytesBits_length (bs : List Nat) :
    (bytesBits bs).length = 8 * bs.length := by
  induction bs with
  | nil => rfl
  | cons b t ih =>
      rw [bytesBits_cons, List.length_append, natBitsMSB_length, ih,
          List.length_cons]
      ring

theorem find_trailing_step (fuel : Nat) (s s1 : MStream)
    (h : stream_next_bit s = some s1) (hm : ¬ (s1.word % 65536 = 0x924a)) :
    sevencities_find_trailing (fuel + 1) s =
      sevencities_find_trailing fuel s1 := by
  rw [sevencities_find_trailing, h]
  simp only
  rw [if_neg hm]

theorem find_trailing_found (fuel : Nat) (s s1 : MStream)
    (h : stream_next_bit s = some s1) (hm : s1.word % 65536 = 0x924a) :
    sevencities_find_trailing (fuel + 1) s = s1 := by
  rw [sevencities_find_trailing, h]
  simp only
  rw [if_pos hm]

theorem find_trailing_skip :
    ∀ (bs rest : List Bool) (fuel : Nat) (s : MStream),
      s.fut = bs ++ rest → s.word < U32 →
      (∀ w ∈ runWords s.word bs, ¬ (w % 65536 = 0x924a)) →
      sevencities_find_trailing (bs.length + fuel) s =
        sevencities_find_trailing fuel (afterRun s bs rest) := by
  intro bs
  induction bs with
  | nil =>
      intro rest fuel s h hw _
      rw [List.length_nil, Nat.zero_add,
          afterRun_nil s rest (by simpa using h) hw]
  | cons b t ih =>
      intro rest fuel s h hw hM
      have hnb := next_bit_cons s b (t ++ rest) (by simpa using h)
      have hm1 : ¬ ((((s.word * 2 + (if b then 1 else 0)) % U32)) % 65536
          = 0x924a) := by
        apply hM
        rw [runWords_cons]
        simp
      have hM2 : ∀ w ∈ runWords ((s.word * 2 + (if b then 1 else 0)) % U32) t,
          ¬ (w % 65536 = 0x924a) := by
        intro w hwm
        apply hM
        rw [runWords_cons]
        simp [hwm]
      have hstep1 := find_trailing_step (t.length + fuel) s
        { s with
          fut := t ++ rest,
          word := (s.word * 2 + (if b then 1 else 0)) % U32,
          indexOffsetBc := s.indexOffsetBc + 1,
          crc := crc16_step s.crc b }
        hnb hm1
      have hrec := ih rest fuel
        { s with
          fut := t ++ rest,
          word := (s.word * 2 + (if b then 1 else 0)) % U32,
          indexOffsetBc := s.indexOffsetBc + 1,
          crc := crc16_step s.crc b }
        rfl (Nat.mod_lt _ U32_pos) hM2
      rw [List.length_cons]
      have harith : t.length + 1 + fuel = t.length + fuel + 1 := by omega
      rw [harith, hstep1, hrec, ← afterRun_cons]

theorem capture_bytes :
    ∀ (P : List Nat) (rest : List Bool) (s : MStream),
      s.fut = bytesBits P ++ rest → s.word < U32 → (∀ b ∈ P, b < 256) →
      sevencities_capture P.length s = (P, afterRun s (bytesBits P) rest) := by
  intro P
  induction P with
  | nil =>
      intro rest s h hw _
      have hb : bytesBits ([] : List Nat) = [] := rfl
      rw [List.length_nil, sevencities_capture, hb,
          afterRun_nil s rest (by simpa [hb] using h) hw]
  | cons b t ih =>
      intro rest s h hw hP
      have hfut : s.fut = natBitsMSB 8 b ++ (bytesBits t ++ rest) := by
        rw [h, bytesBits_cons, List.append_assoc]
      have h8 : stream_next_bits_x 8 s =
          (true, afterRun s (natBitsMSB 8 b) (bytesBits t ++ rest)) := by
        have := bits_x_run (natBitsMSB 8 b) (bytesBits t ++ rest) s hfut hw
        rwa [natBitsMSB_length] at this
      have hword : (afterRun s (natBitsMSB 8 b) (bytesBits t ++ rest)).word
          % 256 = b := by
        simp only [afterRun, natBitsMSB_length, bitsVal_natBitsMSB]
        have hblt : b < 256 := hP b (by simp)
        have hb : b % 2 ^ 8 = b := Nat.mod_eq_of_lt (by omega)
        rw [hb]
        exact byte_of_chunk s.word b hblt
      have hcomp : afterRun s (bytesBits (b :: t)) rest =
          afterRun (afterRun s (natBitsMSB 8 b) (bytesBits t ++ rest))
            (bytesBits t) rest := by
        rw [bytesBits_cons]
        exact afterRun_append s _ _ rest (by simpa using hfut) hw
      simp only [List.length_cons, sevencities_capture, h8]
      rw [ih rest _ rfl (afterRun_word_lt _ _ _)
            (fun x hx => hP x (by simp [hx]))]
      rw [hword, hcomp]

/-- A clean Seven Cities stream: trailing sync, leading sync, payload. -/
def sevenStream (P : List Nat) : MStream :=
  mkStream [natBitsMSB 16 0x924a ++ (natBitsMSB 16 0x9251 ++ bytesBits P)]

/-- Seven Cities accepts every clean stream whose 122 payload bytes have
running CRC 0x010a, returns the payload, and sets the fixed constants. -/
theorem sevencities_accept (P : List Nat) (hlen : P.length = 122)
    (hmem : ∀ b ∈ P, b < 256)
    (hcrc : crc16_bits 0xffff (bytesBits P) = 0x010a) (ti : TrackInfo) :
    ∃ s', sevencities_longtrack_write_raw ti (sevenStream P) =
      (some P,
       { ti with len := 122, data_bitoff := 76000, total_bits := 101500 },
       s') := by
  set s0 : MStream := sevenStream P with hs0
  have hfut0 : s0.fut =
      natBitsMSB 16 0x924a ++ (natBitsMSB 16 0x9251 ++ bytesBits P) := rfl
  have hrevs0 : s0.revs = [] := rfl
  have hw0 : s0.word = 0 := rfl
  have hrem0 : streamRemaining s0 = 15 + (992 + 1) := by
    show s0.fut.length + (s0.revs.map List.length).sum = 15 + (992 + 1)
    rw [hfut0, hrevs0, List.length_append, List.length_append,
        natBitsMSB_length, natBitsMSB_length, bytesBits_length, hlen]
    simp
  -- phase A: find the trailing sync 0x924a, 16 bits in
  have hA : natBitsMSB 16 0x924a =
      List.take 15 (natBitsMSB 16 0x924a) ++ [false] := by decide
  have hfutA : s0.fut = List.take 15 (natBitsMSB 16 0x924a) ++
      ([false] ++ (natBitsMSB 16 0x9251 ++ bytesBits P)) := by
    rw [hfut0]
    conv_lhs => rw [hA]
    rw [List.append_assoc]
  have hMA : ∀ w ∈ runWords s0.word (List.take 15 (natBitsMSB 16 0x924a)),
      ¬ (w % 65536 = 0x924a) := by
    rw [hw0]
    decide
  have hl15A : (List.take 15 (natBitsMSB 16 0x924a)).length = 15 := by decide
  have hskipA := find_trailing_skip (List.take 15 (natBitsMSB 16 0x924a))
    ([false] ++ (natBitsMSB 16 0x9251 ++ bytesBits P)) (992 + 1) s0
    hfutA (by rw [hw0]; decide) hMA
  rw [hl15A] at hskipA
  set sA15 : MStream := afterRun s0 (List.take 15 (natBitsMSB 16 0x924a))
    ([false] ++ (natBitsMSB 16 0x9251 ++ bytesBits P)) with hsA15
  have hnbA := next_bit_cons sA15 false (natBitsMSB 16 0x9251 ++ bytesBits P)
    (by rw [hsA15, afterRun_fut]; rfl)
  set sA16 : MStream := { sA15 with
      fut := natBitsMSB 16 0x9251 ++ bytesBits P,
      word := (sA15.word * 2 + (if false then 1 else 0)) % U32,
      indexOffsetBc := sA15.indexOffsetBc + 1,
      crc := crc16_step sA15.crc false } with hsA16
  have hwA15 : sA15.word = 0x4925 := by
    rw [hsA15, afterRun_word, hl15A, hw0]
    decide
  have hwA16p : sA16.word = (sA15.word * 2 + (if false then 1 else 0)) % U32 :=
    rfl
  have hwA16 : sA16.word = 0x924a := by
    rw [hwA16p, hwA15]
    decide
  have hfoundA : sevencities_find_trailing (streamRemaining s0) s0 = sA16 := by
    rw [hrem0, hskipA]
    exact find_trailing_found 992 sA15 sA16 hnbA (by rw [hwA16])
  -- phase B: fuel for the scan
  have hfutB : sA16.fut = natBitsMSB 16 0x9251 ++ bytesBits P := rfl
  have hrevsB : sA16.revs = [] := by
    show sA15.revs = []
    rw [hsA15, afterRun_revs, hrevs0]
  have hremB : streamRemaining sA16 = 15 + (976 + 1) := by
    show sA16.fut.length + (sA16.revs.map List.length).sum = 15 + (976 + 1)
    rw [hfutB, hrevsB, List.length_append, natBitsMSB_length,
        bytesBits_length, hlen]
    simp
  -- skip the first 15 bits of the leading sync 0x9251
  have hB : natBitsMSB 16 0x9251 =
      List.take 15 (natBitsMSB 16 0x9251) ++ [true] := by decide
  have hfutB2 : sA16.fut = List.take 15 (natBitsMSB 16 0x9251) ++
      ([true] ++ bytesBits P) := by
    rw [hfutB]
    conv_lhs => rw [hB]
    rw [List.append_assoc]
  have hMB : ∀ w ∈ runWords sA16.word (List.take 15 (natBitsMSB 16 0x9251)),
      ¬ (w % 65536 = 0x9251) := by
    rw [hwA16]
    decide
  have hl15B : (List.take 15 (natBitsMSB 16 0x9251)).length = 15 := by decide
  have hskipB := scan_skip sevencities_scan (fun w => w % 65536 = 0x9251)
    (fun t _ => t)
    (fun fuel t s s1 h hm => sevencities_scan_step fuel t s s1 h hm)
    (fun t k1 k2 => rfl)
    (List.take 15 (natBitsMSB 16 0x9251)) ([true] ++ bytesBits P)
    (976 + 1) ti sA16 hfutB2 (by rw [hwA16]; decide) hMB
  rw [hl15B, if_neg (show ¬ (List.take 15 (natBitsMSB 16 0x9251) = [])
    by decide)] at hskipB
  set sB15 : MStream := afterRun sA16 (List.take 15 (natBitsMSB 16 0x9251))
    ([true] ++ bytesBits P) with hsB15
  have hwB15 : sB15.word = 0x49254928 := by
    rw [hsB15, afterRun_word, hl15B, hwA16]
    decide
  obtain ⟨sB16, hnbB, hwB16, hfutB16⟩ :
      ∃ s16, stream_next_bit sB15 = some s16 ∧ s16.word = 0x924a9251 ∧
        s16.fut = bytesBits P := by
    refine ⟨_, next_bit_cons sB15 true (bytesBits P)
      (by rw [hsB15, afterRun_fut]; rfl), ?_, rfl⟩
    show (sB15.word * 2 + (if true then 1 else 0)) % U32 = 0x924a9251
    rw [hwB15]
    decide
  have hmB : sB16.word % 65536 = 0x9251 := by
    rw [hwB16]
  -- the capture of the 122 payload bytes
  have hfutC : (stream_start_crc sB16).fut = bytesBits P ++ [] := by
    rw [List.append_nil]
    show sB16.fut = bytesBits P
    exact hfutB16
  have hwltC : (stream_start_crc sB16).word < U32 := by
    show sB16.word < U32
    rw [hwB16]
    decide
  have hcap := capture_bytes P [] (stream_start_crc sB16) hfutC hwltC hmem
  rw [hlen] at hcap
  have hcrcC : (afterRun (stream_start_crc sB16) (bytesBits P) []).crc
      = 0x010a := by
    rw [afterRun_crc]
    show crc16_bits 0xffff (bytesBits P) = 0x010a
    exact hcrc
  -- the matching scan iteration
  have hmatch : sevencities_scan (976 + 1) ti sB15 =
      (some P,
       { ti with len := 122, data_bitoff := 76000, total_bits := 101500 },
       afterRun (stream_start_crc sB16) (bytesBits P) []) := by
    rw [sevencities_scan, hnbB]
    simp only
    rw [if_neg (not_not_intro hmB)]
    simp only [hcap]
    rw [if_neg (not_not_intro hcrcC)]
  -- assemble
  have hfull : sevencities_longtrack_write_raw ti s0 =
      (some P,
       { ti with len := 122, data_bitoff := 76000, total_bits := 101500 },
       afterRun (stream_start_crc sB16) (bytesBits P) []) := by
    show sevencities_scan
        (streamRemaining (sevencities_find_trailing (streamRemaining s0) s0))
        ti (sevencities_find_trailing (streamRemaining s0) s0) = _
    rw [hfoundA, hremB, hskipB, hmatch]
  exact ⟨afterRun (stream_start_crc sB16) (bytesBits P) [], hfull⟩

set_option maxRecDepth 8000 in
/-- The running CRC of the canonical payload, computed in 12-byte chunks. -/
theorem crc_pC9 : crc16_bits 0xffff (bytesBits pC9) = 0x010a := by
  show crc16_bits 0xffff
    (bytesBits (List.replicate 120 0 ++ [0xba, 0xe4])) = 0x010a
  have e120 : List.replicate 120 (0 : Nat) =
      List.replicate 12 0 ++ (List.replicate 12 0 ++ (List.replicate 12 0 ++ (List.replicate 12 0 ++ (List.replicate 12 0 ++ (List.replicate 12 0 ++ (List.replicate 12 0 ++ (List.replicate 12 0 ++ (List.replicate 12 0 ++ (List.replicate 12 0))))))))) := by
    rw [← List.replicate_add, ← List.replicate_add, ← List.replicate_add, ← List.replicate_add, ← List.replicate_add, ← List.replicate_add, ← List.replicate_add, ← List.replicate_add, ← List.replicate_add]
  rw [e120]
  simp only [bytesBits_append, crc16_bits_append]
  have c1 : crc16_bits 0xffff (bytesBits (List.replicate 12 (0 : Nat)))
      = 0x84f9 := by decide
  have c2 : crc16_bits 0x84f9 (bytesBits (List.replicate 12 (0 : Nat)))
      = 0xef8a := by decide
  have c3 : crc16_bits 0xef8a (bytesBits (List.replicate 12 (0 : Nat)))
      = 0x8135 := by decide
  have c4 : crc16_bits 0x8135 (bytesBits (List.replicate 12 (0 : Nat)))
      = 0xdf9d := by decide
  have c5 : crc16_bits 0xdf9d (bytesBits (List.replicate 12 (0 : Nat)))
      = 0xa445 := by decide
  have c6 : crc16_bits 0xa445 (bytesBits (List.replicate 12 (0 : Nat)))
      = 0x040e := by decide
  have c7 : crc16_bits 0x040e (bytesBits (List.replicate 12 (0 : Nat)))
      = 0x5eae := by decide
  have c8 : crc16_bits 0x5eae (bytesBits (List.replicate 12 (0 : Nat)))
      = 0x8a2c := by decide
  have c9 : crc16_bits 0x8a2c (bytesBits (List.replicate 12 (0 : Nat)))
      = 0xee50 := by decide
  have c10 : crc16_bits 0xee50 (bytesBits (List.replicate 12 (0 : Nat)))
      = 0x183f := by decide
  have c11 : crc16_bits 0x183f (bytesBits [0xba, 0xe4]) = 0x010a := by
    decide
  rw [c1, c2, c3, c4, c5, c6, c7, c8, c9, c10, c11]

def tiC9w : TrackInfo :=
  { type := TRKTYP_sevencities_longtrack, dat := [], len := 0,
    nr_sectors := 0, bytes_per_sector := 0, valid_sectors := 0,
    data_bitoff := 0, total_bits := 0 }

theorem claim_C9_witness :
    (0 < (sevencities_longtrack_write_raw tiC9w
            (sevenStream pC9)).2.1.total_bits ∧
      (sevencities_longtrack_write_raw tiC9w
            (sevenStream pC9)).2.1.data_bitoff <
        (sevencities_longtrack_write_raw tiC9w
            (sevenStream pC9)).2.1.total_bits)
  ∧ (0 < (empty_longtrack_write_raw tiC9w sC9e).2.1.total_bits ∧
      (empty_longtrack_write_raw tiC9w sC9e).2.1.data_bitoff <
        (empty_longtrack_write_raw tiC9w sC9e).2.1.total_bits) := by
  have hlenp : pC9.length = 122 := by
    simp [pC9]
  have hmemp : ∀ b ∈ pC9, b < 256 := by
    intro b hb
    have hb2 : b ∈ List.replicate 120 (0 : Nat) ++ [0xba, 0xe4] := hb
    rcases List.mem_append.mp hb2 with h | h
    · rw [List.eq_of_mem_replicate h]
      decide
    · simp at h
      rcases h with rfl | rfl <;> decide
  constructor
  · obtain ⟨s', hfull⟩ := sevencities_accept pC9 hlenp hmemp crc_pC9 tiC9w
    have h2 := claim_C9.1 tiC9w (sevenStream pC9) pC9 _ s' hfull
    rw [hfull]
    exact h2
  · have h1 : (empty_longtrack_write_raw tiC9w sC9e).1 = some [] := by decide
    have heq : empty_longtrack_write_raw tiC9w sC9e =
        (some [],
         (empty_longtrack_write_raw tiC9w sC9e).2.1,
         (empty_longtrack_write_raw tiC9w sC9e).2.2) := by
      rw [← h1]
    exact claim_C9.2 tiC9w sC9e [] _ _ heq

def tiC5 : TrackInfo :=
  { type := TRKTYP_sevencities_longtrack, dat := [], len := 0,
    nr_sectors := 0, bytes_per_sector := 0, valid_sectors := 0,
    data_bitoff := 0, total_bits := 0 }

/-- A Seven Cities stream with an arbitrary gap between the two syncs:
trailing sync, gap cells, leading sync, payload. -/
def sevenGapStream (G : List Bool) (P : List Nat) : MStream :=
  mkStream [natBitsMSB 16 0x924a ++
    (G ++ (natBitsMSB 16 0x9251 ++ bytesBits P))]

/-- At a matched leading sync whose captured 122 bytes fail the CRC gate,
the scan keeps scanning from after the capture. -/
theorem sevencities_crc_retry (fuel : Nat) (ti : TrackInfo) (s s1 : MStream)
    (h : stream_next_bit s = some s1) (hm : s1.word % 65536 = 0x9251)
    (hcrc : (sevencities_capture 122 (stream_start_crc s1)).2.crc
      ≠ 0x010a) :
    sevencities_scan (fuel + 1) ti s =
      sevencities_scan fuel ti
        (sevencities_capture 122 (stream_start_crc s1)).2 := by
  rw [sevencities_scan, h]
  simp only
  rw [if_neg (not_not_intro hm), if_pos hcrc]

/-- At a matched leading sync whose captured 122 bytes pass the CRC gate,
the scan accepts with exactly those bytes and the fixed constants. -/
theorem sevencities_match_accept (fuel : Nat) (ti : TrackInfo)
    (s s1 : MStream)
    (h : stream_next_bit s = some s1) (hm : s1.word % 65536 = 0x9251)
    (hcrc : (sevencities_capture 122 (stream_start_crc s1)).2.crc
      = 0x010a) :
    sevencities_scan (fuel + 1) ti s =
      (some (sevencities_capture 122 (stream_start_crc s1)).1,
       { ti with len := 122, data_bitoff := 76000, total_bits := 101500 },
       (sevencities_capture 122 (stream_start_crc s1)).2) := by
  rw [sevencities_scan, h]
  simp only
  rw [if_neg (not_not_intro hm), if_neg (not_not_intro hcrc)]

/-- Seven Cities accepts every gapped stream whose gap hides no spurious
leading-sync window and whose 122 payload bytes have running CRC 0x010a,
returning the payload and setting the fixed constants. -/
theorem sevencities_accept_gap (G : List Bool) (P : List Nat)
    (hlen : P.length = 122) (hmem : ∀ b ∈ P, b < 256)
    (hcrc : crc16_bits 0xffff (bytesBits P) = 0x010a)
    (hG : ∀ w ∈ runWords 0x924a
        (G ++ List.take 15 (natBitsMSB 16 0x9251)),
        ¬ (w % 65536 = 0x9251))
    (ti : TrackInfo) :
    ∃ s', sevencities_longtrack_write_raw ti (sevenGapStream G P) =
      (some P,
       { ti with len := 122, data_bitoff := 76000, total_bits := 101500 },
       s') := by
  set s0 : MStream := sevenGapStream G P with hs0
  have hfut0 : s0.fut =
      natBitsMSB 16 0x924a ++
        (G ++ (natBitsMSB 16 0x9251 ++ bytesBits P)) := rfl
  have hrevs0 : s0.revs = [] := rfl
  have hw0 : s0.word = 0 := rfl
  have hrem0 : streamRemaining s0 = 15 + ((G.length + 992) + 1) := by
    show s0.fut.length + (s0.revs.map List.length).sum =
      15 + ((G.length + 992) + 1)
    rw [hfut0, hrevs0, List.length_append, List.length_append,
        List.length_append, natBitsMSB_length, natBitsMSB_length,
        bytesBits_length, hlen, List.map_nil, List.sum_nil]
    omega
  -- phase A: find the trailing sync 0x924a, 16 bits in
  have hA : natBitsMSB 16 0x924a =
      List.take 15 (natBitsMSB 16 0x924a) ++ [false] := by decide
  have hfutA : s0.fut = List.take 15 (natBitsMSB 16 0x924a) ++
      ([false] ++ (G ++ (natBitsMSB 16 0x9251 ++ bytesBits P))) := by
    rw [hfut0]
    conv_lhs => rw [hA]
    rw [List.append_assoc]
  have hMA : ∀ w ∈ runWords s0.word (List.take 15 (natBitsMSB 16 0x924a)),
      ¬ (w % 65536 = 0x924a) := by
    rw [hw0]
    decide
  have hl15A : (List.take 15 (natBitsMSB 16 0x924a)).length = 15 := by decide
  have hskipA := find_trailing_skip (List.take 15 (natBitsMSB 16 0x924a))
    ([false] ++ (G ++ (natBitsMSB 16 0x9251 ++ bytesBits P)))
    ((G.length + 992) + 1) s0 hfutA (by rw [hw0]; decide) hMA
  rw [hl15A] at hskipA
  set sA15 : MStream := afterRun s0 (List.take 15 (natBitsMSB 16 0x924a))
    ([false] ++ (G ++ (natBitsMSB 16 0x9251 ++ bytesBits P))) with hsA15
  have hnbA := next_bit_cons sA15 false
    (G ++ (natBitsMSB 16 0x9251 ++ bytesBits P))
    (by rw [hsA15, afterRun_fut]; rfl)
  set sA16 : MStream := { sA15 with
      fut := G ++ (natBitsMSB 16 0x9251 ++ bytesBits P),
      word := (sA15.word * 2 + (if false then 1 else 0)) % U32,
      indexOffsetBc := sA15.indexOffsetBc + 1,
      crc := crc16_step sA15.crc false } with hsA16
  have hwA15 : sA15.word = 0x4925 := by
    rw [hsA15, afterRun_word, hl15A, hw0]
    decide
  have hwA16p : sA16.word = (sA15.word * 2 + (if false then 1 else 0)) % U32 :=
    rfl
  have hwA16 : sA16.word = 0x924a := by
    rw [hwA16p, hwA15]
    decide
  have hfoundA : sevencities_find_trailing (streamRemaining s0) s0 = sA16 := by
    rw [hrem0, hskipA]
    exact find_trailing_found (G.length + 992) sA15 sA16 hnbA (by rw [hwA16])
  -- phase B: fuel for the scan
  have hfutB : sA16.fut = G ++ (natBitsMSB 16 0x9251 ++ bytesBits P) := rfl
  have hrevsB : sA16.revs = [] := by
    show sA15.revs = []
    rw [hsA15, afterRun_revs, hrevs0]
  have hremB : streamRemaining sA16 = (G.length + 15) + (976 + 1) := by
    show sA16.fut.length + (sA16.revs.map List.length).sum =
      (G.length + 15) + (976 + 1)
    rw [hfutB, hrevsB, List.length_append, List.length_append,
        natBitsMSB_length, bytesBits_length, hlen, List.map_nil,
        List.sum_nil]
    omega
  -- skip the gap and the first 15 bits of the leading sync 0x9251
  have hB : natBitsMSB 16 0x9251 =
      List.take 15 (natBitsMSB 16 0x9251) ++ [true] := by decide
  have hfutB2 : sA16.fut =
      (G ++ List.take 15 (natBitsMSB 16 0x9251)) ++
        ([true] ++ bytesBits P) := by
    rw [hfutB]
    conv_lhs => rw [hB]
    simp only [List.append_assoc]
  have hMB : ∀ w ∈ runWords sA16.word
      (G ++ List.take 15 (natBitsMSB 16 0x9251)),
      ¬ (w % 65536 = 0x9251) := by
    rw [hwA16]
    exact hG
  have hlGB : (G ++ List.take 15 (natBitsMSB 16 0x9251)).length
      = G.length + 15 := by
    rw [List.length_append,
        show (List.take 15 (natBitsMSB 16 0x9251)).length = 15 from
          by decide]
  have hskipB := scan_skip sevencities_scan (fun w => w % 65536 = 0x9251)
    (fun t _ => t)
    (fun fuel t s s1 h hm => sevencities_scan_step fuel t s s1 h hm)
    (fun t k1 k2 => rfl)
    (G ++ List.take 15 (natBitsMSB 16 0x9251)) ([true] ++ bytesBits P)
    (976 + 1) ti sA16 hfutB2 (by rw [hwA16]; decide) hMB
  rw [hlGB, if_neg (show ¬ (G ++ List.take 15 (natBitsMSB 16 0x9251) = [])
    from by
      intro hc
      have hlc := congrArg List.length hc
      rw [hlGB] at hlc
      simp at hlc)] at hskipB
  set sB15 : MStream := afterRun sA16
    (G ++ List.take 15 (natBitsMSB 16 0x9251)) ([true] ++ bytesBits P)
    with hsB15
  have hwB15 : sB15.word =
      (0x924a * 2 ^ (G.length + 15) +
        bitsVal (G ++ List.take 15 (natBitsMSB 16 0x9251))) % U32 := by
    rw [hsB15, afterRun_word, hlGB, hwA16]
  obtain ⟨sB16, hnbB, hmB2, hfutB16, hwB16lt⟩ :
      ∃ s16, stream_next_bit sB15 = some s16 ∧ s16.word % 65536 = 0x9251 ∧
        s16.fut = bytesBits P ∧ s16.word < U32 := by
    refine ⟨_, next_bit_cons sB15 true (bytesBits P)
      (by rw [hsB15, afterRun_fut]; rfl), ?_, rfl,
      Nat.mod_lt _ (by norm_num [U32])⟩
    show ((sB15.word * 2 + (if true then 1 else 0)) % U32) % 65536 = 0x9251
    rw [if_pos rfl, hwB15]
    have hV : bitsVal (G ++ List.take 15 (natBitsMSB 16 0x9251)) =
        bitsVal G * 2 ^ 15 + 0x4928 := by
      rw [bitsVal_append,
          show (List.take 15 (natBitsMSB 16 0x9251)).length = 15 from
            by decide,
          show bitsVal (List.take 15 (natBitsMSB 16 0x9251)) = 0x4928 from
            by decide]
    rw [hV]
    have hcomp : (((0x924a * 2 ^ (G.length + 15) +
        (bitsVal G * 2 ^ 15 + 0x4928)) % U32) * 2 + 1) % U32 =
        ((0x924a * 2 ^ G.length + bitsVal G) * 2 ^ 16 + 0x9251) % U32 := by
      have h1 : (((0x924a * 2 ^ (G.length + 15) +
          (bitsVal G * 2 ^ 15 + 0x4928)) % U32) * 2 + 1) % U32 =
          ((0x924a * 2 ^ (G.length + 15) +
            (bitsVal G * 2 ^ 15 + 0x4928)) * 2 + 1) % U32 :=
        Nat.ModEq.add_right 1 (Nat.ModEq.mul_right 2 (Nat.mod_modEq _ U32))
      have h2 : (0x924a * 2 ^ (G.length + 15) +
          (bitsVal G * 2 ^ 15 + 0x4928)) * 2 + 1 =
          (0x924a * 2 ^ G.length + bitsVal G) * 2 ^ 16 + 0x9251 := by
        rw [pow_add]
        ring
      rw [h1, h2]
    rw [hcomp, show (65536 : Nat) = 2 ^ 16 from by norm_num]
    exact chunk_mod _ 0x9251 16 (by decide) (by decide)
  -- the capture of the 122 payload bytes
  have hfutC : (stream_start_crc sB16).fut = bytesBits P ++ [] := by
    rw [List.append_nil]
    show sB16.fut = bytesBits P
    exact hfutB16
  have hwltC : (stream_start_crc sB16).word < U32 := by
    show sB16.word < U32
    exact hwB16lt
  have hcap := capture_bytes P [] (stream_start_crc sB16) hfutC hwltC hmem
  rw [hlen] at hcap
  have hcrcC : (afterRun (stream_start_crc sB16) (bytesBits P) []).crc
      = 0x010a := by
    rw [afterRun_crc]
    show crc16_bits 0xffff (bytesBits P) = 0x010a
    exact hcrc
  have hmatch : sevencities_scan (976 + 1) ti sB15 =
      (some P,
       { ti with len := 122, data_bitoff := 76000, total_bits := 101500 },
       afterRun (stream_start_crc sB16) (bytesBits P) []) := by
    rw [sevencities_scan, hnbB]
    simp only
    rw [if_neg (not_not_intro hmB2)]
    simp only [hcap]
    rw [if_neg (not_not_intro hcrcC)]
  refine ⟨afterRun (stream_start_crc sB16) (bytesBits P) [], ?_⟩
  show sevencities_scan
      (streamRemaining (sevencities_find_trailing (streamRemaining s0) s0))
      ti (sevencities_find_trailing (streamRemaining s0) s0) = _
  rw [hfoundA, hremB, hskipB, hmatch]

/-- C5: sevencities_longtrack accepts a stream exactly through this
sequence: windows that do not show the trailing sync 0x924a only advance
the first search; windows that do not show the leading sync 0x9251 only
advance the scan; a matched leading sync captures 122 raw bytes and, when
their running CRC-16/CCITT differs from 0x010a, the scan just continues;
when it equals 0x010a the scan accepts with exactly the captured bytes and
len 122, data_bitoff 76000, total_bits 101500.  Streams presenting sync
0x924a, a gap free of spurious sync windows, sync 0x9251 and 122
CRC-correct bytes are accepted with that payload, and every success (from
any stream) returns a 122-byte payload with the three constants. -/
theorem claim_C5 :
    (∀ (G : List Bool) (P : List Nat), P.length = 122 →
        (∀ b ∈ P, b < 256) → crc16_bits 0xffff (bytesBits P) = 0x010a →
        (∀ w ∈ runWords 0x924a (G ++ List.take 15 (natBitsMSB 16 0x9251)),
          ¬ (w % 65536 = 0x9251)) →
        ∀ (ti : TrackInfo),
        ∃ s', sevencities_longtrack_write_raw ti (sevenGapStream G P) =
          (some P,
           { ti with
             len := 122, data_bitoff := 76000, total_bits := 101500 },
           s'))
  ∧ (∀ (fuel : Nat) (s s1 : MStream), stream_next_bit s = some s1 →
        ¬ (s1.word % 65536 = 0x924a) →
        sevencities_find_trailing (fuel + 1) s =
          sevencities_find_trailing fuel s1)
  ∧ (∀ (fuel : Nat) (ti : TrackInfo) (s s1 : MStream),
        stream_next_bit s = some s1 → ¬ (s1.word % 65536 = 0x9251) →
        sevencities_scan (fuel + 1) ti s = sevencities_scan fuel ti s1)
  ∧ (∀ (fuel : Nat) (ti : TrackInfo) (s s1 : MStream),
        stream_next_bit s = some s1 → s1.word % 65536 = 0x9251 →
        (sevencities_capture 122 (stream_start_crc s1)).2.crc ≠ 0x010a →
        sevencities_scan (fuel + 1) ti s =
          sevencities_scan fuel ti
            (sevencities_capture 122 (stream_start_crc s1)).2)
  ∧ (∀ (fuel : Nat) (ti : TrackInfo) (s s1 : MStream),
        stream_next_bit s = some s1 → s1.word % 65536 = 0x9251 →
        (sevencities_capture 122 (stream_start_crc s1)).2.crc = 0x010a →
        sevencities_scan (fuel + 1) ti s =
          (some (sevencities_capture 122 (stream_start_crc s1)).1,
           { ti with
             len := 122, data_bitoff := 76000, total_bits := 101500 },
           (sevencities_capture 122 (stream_start_crc s1)).2))
  ∧ (∀ (ti : TrackInfo) (s : MStream) (d : List Nat) (ti' : TrackInfo)
        (s' : MStream),
        sevencities_longtrack_write_raw ti s = (some d, ti', s') →
        ti' = { ti with
                len := 122, data_bitoff := 76000, total_bits := 101500 }
          ∧ d.length = 122) := by
  refine ⟨?_, ?_, ?_, ?_, ?_, ?_⟩
  · intro G P h1 h2 h3 h4 ti
    exact sevencities_accept_gap G P h1 h2 h3 h4 ti
  · intro fuel s s1 h hm
    exact find_trailing_step fuel s s1 h hm
  · intro fuel ti s s1 h hm
    exact sevencities_scan_step fuel ti s s1 h hm
  · intro fuel ti s s1 h hm hc
    exact sevencities_crc_retry fuel ti s s1 h hm hc
  · intro fuel ti s s1 h hm hc
    exact sevencities_match_accept fuel ti s s1 h hm hc
  · intro ti s d ti' s' h
    exact sevencities_write_success ti s d ti' s' h

theorem claim_C5_witness :
    ∃ s', sevencities_longtrack_write_raw tiC5
        (sevenGapStream (gapFill 40) pC9) =
      (some pC9,
       { tiC5 with
         len := 122, data_bitoff := 76000, total_bits := 101500 },
       s') :=
  claim_C5.1 (gapFill 40) pC9 (by simp [pC9])
    (by
      intro b hb
      have hb2 : b ∈ List.replicate 120 (0 : Nat) ++ [0xba, 0xe4] := hb
      rcases List.mem_append.mp hb2 with h | h
      · rw [List.eq_of_mem_replicate h]
        decide
      · simp at h
        rcases h with rfl | rfl <;> decide)
    crc_pC9 (by decide) tiC5

theorem rem_zero_next_bit (s : MStream) (h : streamRemaining s = 0) :
    stream_next_bit s = none := by
  have hf : s.fut.length = 0 := by
    have := h
    unfold streamRemaining at this
    omega
  have hfut : s.fut = [] := List.eq_nil_of_length_eq_zero hf
  rw [stream_next_bit, hfut]
  cases hr : s.revs with
  | nil => rfl
  | cons r rs =>
      have hsum : ((r :: rs).map List.length).sum = 0 := by
        unfold streamRemaining at h
        rw [hr] at h
        omega
      have hrlen : r.length = 0 := by
        rw [List.map_cons, List.sum_cons] at hsum
        omega
      have hrnil : r = [] := List.eq_nil_of_length_eq_zero hrlen
      rw [hrnil]

theorem rem_succ (s s1 : MStream) (h : stream_next_bit s = some s1) :
    streamRemaining s = streamRemaining s1 + 1 := by
  unfold stream_next_bit at h
  cases hf : s.fut with
  | cons b rest =>
      rw [hf] at h
      simp only [Option.some.injEq] at h
      rw [← h]
      unfold streamRemaining
      rw [hf]
      simp
      omega
  | nil =>
      rw [hf] at h
      cases hr : s.revs with
      | nil => rw [hr] at h; simp at h
      | cons r rs =>
          rw [hr] at h
          cases hrr : r with
          | nil => rw [hrr] at h; simp at h
          | cons b rest =>
              rw [hrr] at h
              simp only [Option.some.injEq] at h
              rw [← h]
              unfold streamRemaining
              rw [hf, hr, hrr]
              simp
              omega

theorem bits_x_false_end :
    ∀ (n : Nat) (s : MStream), (stream_next_bits_x n s).1 = false →
      stream_next_bit (stream_next_bits_x n s).2 = none := by
  intro n
  induction n with
  | zero => intro s h; simp [stream_next_bits_x] at h
  | succ k ih =>
      intro s h
      rw [stream_next_bits_x] at h ⊢
      cases hnb : stream_next_bit s with
      | none => exact hnb
      | some s1 =>
          rw [hnb] at h
          exact ih s1 h

theorem bits_x_rem :
    ∀ (n : Nat) (s : MStream),
      streamRemaining (stream_next_bits_x n s).2 ≤ streamRemaining s := by
  intro n
  induction n with
  | zero => intro s; simp [stream_next_bits_x]
  | succ k ih =>
      intro s
      rw [stream_next_bits_x]
      cases hnb : stream_next_bit s with
      | none => simp
      | some s1 =>
          simp only
          have h1 := rem_succ s s1 hnb
          have h2 := ih s1
          omega

theorem bytes_x_false_end :
    ∀ (n : Nat) (s : MStream), (stream_next_bytes_x n s).1 = false →
      stream_next_bit (stream_next_bytes_x n s).2.2 = none := by
  intro n
  induction n with
  | zero => intro s h; simp [stream_next_bytes_x] at h
  | succ k ih =>
      intro s h
      rw [stream_next_bytes_x] at h ⊢
      by_cases h8 : (stream_next_bits_x 8 s).1
      · rw [if_pos h8] at h ⊢
        exact ih _ h
      · rw [if_neg h8] at h ⊢
        exact bits_x_false_end 8 s (by simpa using h8)

theorem bytes_x_rem :
    ∀ (n : Nat) (s : MStream),
      streamRemaining (stream_next_bytes_x n s).2.2 ≤ streamRemaining s := by
  intro n
  induction n with
  | zero => intro s; simp [stream_next_bytes_x]
  | succ k ih =>
      intro s
      rw [stream_next_bytes_x]
      by_cases h8 : (stream_next_bits_x 8 s).1
      · rw [if_pos h8]
        simp only
        have h1 := ih (stream_next_bits_x 8 s).2
        have h2 := bits_x_rem 8 s
        omega
      · rw [if_neg h8]
        exact bits_x_rem 8 s

/-- A none result from the rtype_a scan leaves the stream at its end,
provided the fuel covered the remaining bits (as the entry point ensures). -/
theorem rtype_a_none_at_end :
    ∀ (fuel : Nat) (ti : TrackInfo) (s : MStream) (ti' : TrackInfo)
      (s' : MStream), streamRemaining s ≤ fuel →
      rtype_a_scan fuel ti s = (none, ti', s') → stream_next_bit s' = none := by
  intro fuel
  induction fuel with
  | zero =>
      intro ti s ti' s' hle h
      rw [rtype_a_scan] at h
      simp only [Prod.mk.injEq] at h
      obtain ⟨_, _, h3⟩ := h
      rw [← h3]
      exact rem_zero_next_bit s (by omega)
  | succ k ih =>
      intro ti s ti' s' hle h
      rw [rtype_a_scan] at h
      cases hnb : stream_next_bit s with
      | none =>
          rw [hnb] at h
          simp only [Prod.mk.injEq] at h
          obtain ⟨_, _, h3⟩ := h
          rw [← h3]
          exact hnb
      | some s1 =>
          rw [hnb] at h
          simp only at h
          have hrem1 : streamRemaining s1 ≤ k := by
            have := rem_succ s s1 hnb
            omega
          split at h
          · exact ih _ _ _ _ hrem1 h
          · split at h
            · rename_i hc16
              simp only [Prod.mk.injEq] at h
              obtain ⟨_, _, h3⟩ := h
              rw [← h3]
              exact bits_x_false_end 16 s1 (by simpa using hc16)
            · split at h
              · rename_i hfill
                have hrem16 : streamRemaining (stream_next_bits_x 16 s1).2 ≤ k := by
                  have := bits_x_rem 16 s1
                  omega
                exact ih _ _ _ _ hrem16 h
              · split at h
                · rename_i hc32
                  simp only [Prod.mk.injEq] at h
                  obtain ⟨_, _, h3⟩ := h
                  rw [← h3]
                  exact bits_x_false_end 32 _ (by simpa using hc32)
                · split at h
                  · rename_i hcb
                    simp only [Prod.mk.injEq] at h
                    obtain ⟨_, _, h3⟩ := h
                    rw [← h3]
                    exact bytes_x_false_end _ _ (by simpa using hcb)
                  · split at h
                    · rename_i hcs
                      have hremb : streamRemaining
                          (stream_next_bytes_x (2 * ti.len)
                            (stream_next_bits_x 32
                              (stream_next_bits_x 16 s1).2).2).2.2 ≤ k := by
                        have hb := bytes_x_rem (2 * ti.len)
                          (stream_next_bits_x 32
                            (stream_next_bits_x 16 s1).2).2
                        have h32 := bits_x_rem 32 (stream_next_bits_x 16 s1).2
                        have h16 := bits_x_rem 16 s1
                        omega
                      exact ih _ _ _ _ hremb h
                    · simp at h

/-- A matched sync whose filler word decodes non-zero just continues the
scan from the current position. -/
theorem rtype_a_filler_retry (fuel : Nat) (ti : TrackInfo) (s s1 : MStream)
    (h : stream_next_bit s = some s1) (hm : s1.word % 65536 = 0x9521)
    (h16 : (stream_next_bits_x 16 s1).1 = true)
    (hfill : mfm_decode_word ((stream_next_bits_x 16 s1).2.word % 65536)
      ≠ 0) :
    rtype_a_scan (fuel + 1) ti s =
      rtype_a_scan fuel { ti with data_bitoff := wsub s1.indexOffsetBc 15 }
        (stream_next_bits_x 16 s1).2 := by
  rw [rtype_a_scan, h]
  simp only
  rw [if_neg (not_not_intro hm),
      if_neg (show ¬ ((!(stream_next_bits_x 16 s1).1) = true) by simp [h16]),
      if_pos hfill]

/-- A matched sync and zero filler whose recomputed checksum mismatches
also just continues the scan from the current position. -/
theorem rtype_a_csum_retry (fuel : Nat) (ti : TrackInfo) (s s1 : MStream)
    (h : stream_next_bit s = some s1) (hm : s1.word % 65536 = 0x9521)
    (h16 : (stream_next_bits_x 16 s1).1 = true)
    (hfill : mfm_decode_word ((stream_next_bits_x 16 s1).2.word % 65536) = 0)
    (h32 : (stream_next_bits_x 32 (stream_next_bits_x 16 s1).2).1 = true)
    (hb : (stream_next_bytes_x (2 * ti.len)
      (stream_next_bits_x 32 (stream_next_bits_x 16 s1).2).2).1 = true)
    (hcs : amigados_checksum (mfm_decode_bytes_even_odd ti.len
        (stream_next_bytes_x (2 * ti.len)
          (stream_next_bits_x 32 (stream_next_bits_x 16 s1).2).2).2.1)
      ≠ mfm_decode_bits_odd
        (stream_next_bits_x 32 (stream_next_bits_x 16 s1).2).2.word) :
    rtype_a_scan (fuel + 1) ti s =
      rtype_a_scan fuel { ti with data_bitoff := wsub s1.indexOffsetBc 15 }
        (stream_next_bytes_x (2 * ti.len)
          (stream_next_bits_x 32 (stream_next_bits_x 16 s1).2).2).2.2 := by
  rw [rtype_a_scan, h]
  simp only
  rw [if_neg (not_not_intro hm),
      if_neg (show ¬ ((!(stream_next_bits_x 16 s1).1) = true) by simp [h16]),
      if_neg (not_not_intro hfill),
      if_neg (show ¬ ((!(stream_next_bits_x 32
        (stream_next_bits_x 16 s1).2).1) = true) by simp [h32]),
      if_neg (show ¬ ((!(stream_next_bytes_x (2 * ti.len)
        (stream_next_bits_x 32 (stream_next_bits_x 16 s1).2).2).1) = true)
        by simp [hb]),
      if_pos hcs]

def tiC6 : TrackInfo :=
  { type := TRKTYP_rtype_a, dat := [], len := 0, nr_sectors := 0,
    bytes_per_sector := 0, valid_sectors := 0, data_bitoff := 0,
    total_bits := 0 }

def sC6 : MStream :=
  { fut := true :: natBitsMSB 16 0xffff, curLen := 40, revs := [],
    word := 0x4A90, indexOffsetBc := 0, trackLenBc := 0, crc := 0xffff }

def sC6a : MStream :=
  { fut := natBitsMSB 16 0xffff, curLen := 40, revs := [], word := 0x9521,
    indexOffsetBc := 1, trackLenBc := 0, crc := crc16_step 0xffff true }

/-- C6: rtype_a's scan, after matching the 0x9521 sync, keeps scanning
from the current position when the filler word decodes non-zero or when
the recomputed AmigaDOS checksum mismatches the decoded one, and a none
result is only ever delivered with the stream at its end. -/
theorem claim_C6 :
    (∀ (fuel : Nat) (ti : TrackInfo) (s s1 : MStream),
        stream_next_bit s = some s1 → s1.word % 65536 = 0x9521 →
        (stream_next_bits_x 16 s1).1 = true →
        mfm_decode_word ((stream_next_bits_x 16 s1).2.word % 65536) ≠ 0 →
        rtype_a_scan (fuel + 1) ti s =
          rtype_a_scan fuel
            { ti with data_bitoff := wsub s1.indexOffsetBc 15 }
            (stream_next_bits_x 16 s1).2)
  ∧ (∀ (fuel : Nat) (ti : TrackInfo) (s s1 : MStream),
        stream_next_bit s = some s1 → s1.word % 65536 = 0x9521 →
        (stream_next_bits_x 16 s1).1 = true →
        mfm_decode_word ((stream_next_bits_x 16 s1).2.word % 65536) = 0 →
        (stream_next_bits_x 32 (stream_next_bits_x 16 s1).2).1 = true →
        (stream_next_bytes_x (2 * ti.len)
          (stream_next_bits_x 32 (stream_next_bits_x 16 s1).2).2).1 = true →
        amigados_checksum (mfm_decode_bytes_even_odd ti.len
            (stream_next_bytes_x (2 * ti.len)
              (stream_next_bits_x 32 (stream_next_bits_x 16 s1).2).2).2.1)
          ≠ mfm_decode_bits_odd
            (stream_next_bits_x 32 (stream_next_bits_x 16 s1).2).2.word →
        rtype_a_scan (fuel + 1) ti s =
          rtype_a_scan fuel
            { ti with data_bitoff := wsub s1.indexOffsetBc 15 }
            (stream_next_bytes_x (2 * ti.len)
              (stream_next_bits_x 32 (stream_next_bits_x 16 s1).2).2).2.2)
  ∧ (∀ (ti : TrackInfo) (s : MStream) (ti' : TrackInfo) (s' : MStream),
        rtype_a_write_mfm ti s = (none, ti', s') →
        stream_next_bit s' = none) := by
  refine ⟨?_, ?_, ?_⟩
  · intro fuel ti s s1 h hm h16 hfill
    exact rtype_a_filler_retry fuel ti s s1 h hm h16 hfill
  · intro fuel ti s s1 h hm h16 hfill h32 hb hcs
    exact rtype_a_csum_retry fuel ti s s1 h hm h16 hfill h32 hb hcs
  · intro ti s ti' s' h
    exact rtype_a_none_at_end (streamRemaining s) ti s ti' s'
      (Nat.le_refl _) h

theorem claim_C6_witness :
    rtype_a_scan (3 + 1) tiC6 sC6 =
      rtype_a_scan 3 { tiC6 with data_bitoff := wsub sC6a.indexOffsetBc 15 }
        (stream_next_bits_x 16 sC6a).2 :=
  claim_C6.1 3 tiC6 sC6 sC6a rfl (by decide) (by decide) (by decide)

/-- At a matched rtype_b sync with all reads succeeding, the iteration
succeeds exactly when the transformed checksum equals the decoded
trailing longword: the success arm. -/
theorem rtype_b_match_success (fuel : Nat) (ti : TrackInfo) (s s1 : MStream)
    (h : stream_next_bit s = some s1) (hm : s1.word % 65536 = 0x9521)
    (h16 : (stream_next_bits_x 16 s1).1 = true)
    (hfill : mfm_decode_word ((stream_next_bits_x 16 s1).2.word % 65536) = 0)
    (hb : (stream_next_bytes_x (2 * ti.len)
      (stream_next_bits_x 16 s1).2).1 = true)
    (ht : (stream_next_bytes_x 8 (stream_next_bytes_x (2 * ti.len)
      (stream_next_bits_x 16 s1).2).2.2).1 = true)
    (hcs : (amigados_checksum (rtypeBDecodeGroups
          (stream_next_bytes_x (2 * ti.len)
            (stream_next_bits_x 16 s1).2).2.1) &&& 0x55555555) ||| 0xaaaaaaaa
      = be32
        ((mfm_decode_bytes_even_odd 4 (stream_next_bytes_x 8
          (stream_next_bytes_x (2 * ti.len)
            (stream_next_bits_x 16 s1).2).2.2).2.1).getD 0 0)
        ((mfm_decode_bytes_even_odd 4 (stream_next_bytes_x 8
          (stream_next_bytes_x (2 * ti.len)
            (stream_next_bits_x 16 s1).2).2.2).2.1).getD 1 0)
        ((mfm_decode_bytes_even_odd 4 (stream_next_bytes_x 8
          (stream_next_bytes_x (2 * ti.len)
            (stream_next_bits_x 16 s1).2).2.2).2.1).getD 2 0)
        ((mfm_decode_bytes_even_odd 4 (stream_next_bytes_x 8
          (stream_next_bytes_x (2 * ti.len)
            (stream_next_bits_x 16 s1).2).2.2).2.1).getD 3 0)) :
    rtype_b_scan (fuel + 1) ti s =
      (some (rtypeBDecodeGroups (stream_next_bytes_x (2 * ti.len)
         (stream_next_bits_x 16 s1).2).2.1),
       { ti with data_bitoff := wsub s1.indexOffsetBc 15,
                 valid_sectors := 2 ^ ti.nr_sectors - 1,
                 total_bits := 105500 },
       (stream_next_bytes_x 8 (stream_next_bytes_x (2 * ti.len)
         (stream_next_bits_x 16 s1).2).2.2).2.2) := by
  rw [rtype_b_scan, h]
  simp only
  rw [if_neg (not_not_intro hm),
      if_neg (show ¬ ((!(stream_next_bits_x 16 s1).1) = true) by simp [h16]),
      if_neg (not_not_intro hfill),
      if_neg (show ¬ ((!(stream_next_bytes_x (2 * ti.len)
        (stream_next_bits_x 16 s1).2).1) = true) by simp [hb]),
      if_neg (show ¬ ((!(stream_next_bytes_x 8
        (stream_next_bytes_x (2 * ti.len)
          (stream_next_bits_x 16 s1).2).2.2).1) = true) by simp [ht]),
      if_neg (not_not_intro hcs)]

/-- The mismatch arm: with the same reads, a trailing longword that does
not equal the transformed checksum makes the iteration keep scanning. -/
theorem rtype_b_match_retry (fuel : Nat) (ti : TrackInfo) (s s1 : MStream)
    (h : stream_next_bit s = some s1) (hm : s1.word % 65536 = 0x9521)
    (h16 : (stream_next_bits_x 16 s1).1 = true)
    (hfill : mfm_decode_word ((stream_next_bits_x 16 s1).2.word % 65536) = 0)
    (hb : (stream_next_bytes_x (2 * ti.len)
      (stream_next_bits_x 16 s1).2).1 = true)
    (ht : (stream_next_bytes_x 8 (stream_next_bytes_x (2 * ti.len)
      (stream_next_bits_x 16 s1).2).2.2).1 = true)
    (hcs : (amigados_checksum (rtypeBDecodeGroups
          (stream_next_bytes_x (2 * ti.len)
            (stream_next_bits_x 16 s1).2).2.1) &&& 0x55555555) ||| 0xaaaaaaaa
      ≠ be32
        ((mfm_decode_bytes_even_odd 4 (stream_next_bytes_x 8
          (stream_next_bytes_x (2 * ti.len)
            (stream_next_bits_x 16 s1).2).2.2).2.1).getD 0 0)
        ((mfm_decode_bytes_even_odd 4 (stream_next_bytes_x 8
          (stream_next_bytes_x (2 * ti.len)
            (stream_next_bits_x 16 s1).2).2.2).2.1).getD 1 0)
        ((mfm_decode_bytes_even_odd 4 (stream_next_bytes_x 8
          (stream_next_bytes_x (2 * ti.len)
            (stream_next_bits_x 16 s1).2).2.2).2.1).getD 2 0)
        ((mfm_decode_bytes_even_odd 4 (stream_next_bytes_x 8
          (stream_next_bytes_x (2 * ti.len)
            (stream_next_bits_x 16 s1).2).2.2).2.1).getD 3 0)) :
    rtype_b_scan (fuel + 1) ti s =
      rtype_b_scan fuel { ti with data_bitoff := wsub s1.indexOffsetBc 15 }
        (stream_next_bytes_x 8 (stream_next_bytes_x (2 * ti.len)
          (stream_next_bits_x 16 s1).2).2.2).2.2 := by
  rw [rtype_b_scan, h]
  simp only
  rw [if_neg (not_not_intro hm),
      if_neg (show ¬ ((!(stream_next_bits_x 16 s1).1) = true) by simp [h16]),
      if_neg (not_not_intro hfill),
      if_neg (show ¬ ((!(stream_next_bytes_x (2 * ti.len)
        (stream_next_bits_x 16 s1).2).1) = true) by simp [hb]),
      if_neg (show ¬ ((!(stream_next_bytes_x 8
        (stream_next_bytes_x (2 * ti.len)
          (stream_next_bits_x 16 s1).2).2.2).1) = true) by simp [ht]),
      if_pos hcs]

/-- Every successful rtype_b decode sets total_bits to 105500. -/
theorem rtype_b_success_total_bits :
    ∀ (fuel : Nat) (ti : TrackInfo) (s : MStream) (d : List Nat)
      (ti' : TrackInfo) (s' : MStream),
      rtype_b_scan fuel ti s = (some d, ti', s') →
      ti'.total_bits = 105500 := by
  intro fuel
  induction fuel with
  | zero => intro ti s d ti' s' h; simp [rtype_b_scan] at h
  | succ k ih =>
      intro ti s d ti' s' h
      rw [rtype_b_scan] at h
      cases hnb : stream_next_bit s with
      | none => rw [hnb] at h; simp at h
      | some s1 =>
          rw [hnb] at h
          simp only at h
          split at h
          · exact ih _ _ _ _ _ h
          · split at h
            · simp at h
            · split at h
              · exact ih _ _ _ _ _ h
              · split at h
                · simp at h
                · split at h
                  · simp at h
                  · split at h
                    · exact ih _ _ _ _ _ h
                    · simp only [Prod.mk.injEq] at h
                      obtain ⟨_, h2, _⟩ := h
                      rw [← h2]

/-- The raw cells (and final previous-cell state) of the rtype_b data
section: per 4-byte group, the even halves then the odd halves. -/
def rtypeBGroupBits (prev : Bool) : List Nat → List Bool × Bool
  | b0 :: b1 :: b2 :: b3 :: rest =>
      let e := mfmHalves evenHalf prev [b0, b1, b2, b3]
      let o := mfmHalves oddHalf e.2 [b0, b1, b2, b3]
      let r := rtypeBGroupBits o.2 rest
      (e.1 ++ (o.1 ++ r.1), r.2)
  | _ => ([], prev)

theorem rtypeBEncodeGroups_bits :
    ∀ (dat : List Nat) (tb : TBuf),
      rtypeBEncodeGroups tb dat =
        { bits := tb.bits ++ (rtypeBGroupBits tb.prev dat).1,
          prev := (rtypeBGroupBits tb.prev dat).2 }
  | b0 :: b1 :: b2 :: b3 :: rest, tb => by
      rw [rtypeBEncodeGroups,
          rtypeBEncodeGroups_bits rest (tbuf_bytes_mfm_even_odd tb
            [b0, b1, b2, b3])]
      rw [rtypeBGroupBits]
      simp only [tbuf_bytes_mfm_even_odd]
      rw [List.append_assoc, List.append_assoc]
  | [], tb => by simp [rtypeBEncodeGroups, rtypeBGroupBits]
  | [b0], tb => by simp [rtypeBEncodeGroups, rtypeBGroupBits]
  | [b0, b1], tb => by simp [rtypeBEncodeGroups, rtypeBGroupBits]
  | [b0, b1, b2], tb => by simp [rtypeBEncodeGroups, rtypeBGroupBits]

/-- The checksum longword rtype_b emits and compares. -/
def rtypeBCsum (dat : List Nat) : Nat :=
  (amigados_checksum dat &&& 0x55555555) ||| 0xaaaaaaaa

/-- The raw cells of the trailing MFM_even_odd checksum longword. -/
def rtypeBTrailerBits (prev : Bool) (c : Nat) : List Bool :=
  mfmEncodeBits prev 16 (dropClock 16 (c / 2)) ++
    mfmEncodeBits ((dropClock 16 (c / 2)).testBit 0) 16 (dropClock 16 c)

/-- The rtype_b re-encode emits, after any prior contents: the raw sync
0x9521, an MFM zero filler byte, the per-longword even/odd data groups,
and the even/odd checksum longword. -/
theorem rtype_b_encode_layout (ti : TrackInfo) (tb : TBuf) :
    (rtype_b_read_mfm ti tb).bits =
      tb.bits ++ (natBitsMSB 16 0x9521 ++ (mfmEncodeBits true 8 0 ++
        ((rtypeBGroupBits false ti.dat).1 ++
          rtypeBTrailerBits (rtypeBGroupBits false ti.dat).2
            (rtypeBCsum ti.dat)))) := by
  simp only [rtype_b_read_mfm, tbuf_bits_raw, tbuf_bits_mfm,
    tbuf_bits_mfm_even_odd32, tbuf_bits_mfm_odd32, tbuf_bits_mfm_even32,
    rtypeBEncodeGroups_bits, rtypeBTrailerBits, rtypeBCsum]
  norm_num

def tiC4 : TrackInfo :=
  { type := TRKTYP_rtype_b, dat := [], len := 4, nr_sectors := 0,
    bytes_per_sector := 0, valid_sectors := 0, data_bitoff := 0,
    total_bits := 0 }

def sC4w : MStream :=
  { fut := true :: bytesBits [0x2a, 0xaa, 0xaa, 0xaa, 0xaa, 0xaa, 0xaa,
      0xaa, 0xaa, 0xaa, 0x55, 0x55, 0x55, 0x55, 0x2a, 0xaa, 0xaa, 0xaa],
    curLen := 200, revs := [], word := 0x4A90, indexOffsetBc := 0,
    trackLenBc := 0, crc := 0xffff }

def sC4a : MStream :=
  { fut := bytesBits [0x2a, 0xaa, 0xaa, 0xaa, 0xaa, 0xaa, 0xaa, 0xaa,
      0xaa, 0xaa, 0x55, 0x55, 0x55, 0x55, 0x2a, 0xaa, 0xaa, 0xaa],
    curLen := 200, revs := [], word := 0x9521, indexOffsetBc := 1,
    trackLenBc := 0, crc := crc16_step 0xffff true }

/-- C4: at a matched rtype_b sync, with the filler, data and trailing
reads all succeeding, the iteration accepts exactly when the decoded
trailing longword (big-endian) equals the AmigaDOS checksum of the
decoded payload transformed by and-0x55555555 or-0xaaaaaaaa -- on a
mismatch it keeps scanning; every success sets total_bits to 105500; and
the re-encode emits the sync, filler, even/odd data groups and even/odd
checksum longword in sequence. -/
theorem claim_C4 :
    (∀ (fuel : Nat) (ti : TrackInfo) (s s1 : MStream),
        stream_next_bit s = some s1 → s1.word % 65536 = 0x9521 →
        (stream_next_bits_x 16 s1).1 = true →
        mfm_decode_word ((stream_next_bits_x 16 s1).2.word % 65536) = 0 →
        (stream_next_bytes_x (2 * ti.len)
          (stream_next_bits_x 16 s1).2).1 = true →
        (stream_next_bytes_x 8 (stream_next_bytes_x (2 * ti.len)
          (stream_next_bits_x 16 s1).2).2.2).1 = true →
        (amigados_checksum (rtypeBDecodeGroups
            (stream_next_bytes_x (2 * ti.len)
              (stream_next_bits_x 16 s1).2).2.1) &&& 0x55555555)
          ||| 0xaaaaaaaa
          = be32
            ((mfm_decode_bytes_even_odd 4 (stream_next_bytes_x 8
              (stream_next_bytes_x (2 * ti.len)
                (stream_next_bits_x 16 s1).2).2.2).2.1).getD 0 0)
            ((mfm_decode_bytes_even_odd 4 (stream_next_bytes_x 8
              (stream_next_bytes_x (2 * ti.len)
                (stream_next_bits_x 16 s1).2).2.2).2.1).getD 1 0)
            ((mfm_decode_bytes_even_odd 4 (stream_next_bytes_x 8
              (stream_next_bytes_x (2 * ti.len)
                (stream_next_bits_x 16 s1).2).2.2).2.1).getD 2 0)
            ((mfm_decode_bytes_even_odd 4 (stream_next_bytes_x 8
              (stream_next_bytes_x (2 * ti.len)
                (stream_next_bits_x 16 s1).2).2.2).2.1).getD 3 0) →
        rtype_b_scan (fuel + 1) ti s =
          (some (rtypeBDecodeGroups (stream_next_bytes_x (2 * ti.len)
             (stream_next_bits_x 16 s1).2).2.1),
           { ti with data_bitoff := wsub s1.indexOffsetBc 15,
                     valid_sectors := 2 ^ ti.nr_sectors - 1,
                     total_bits := 105500 },
           (stream_next_bytes_x 8 (stream_next_bytes_x (2 * ti.len)
             (stream_next_bits_x 16 s1).2).2.2).2.2))
  ∧ (∀ (fuel : Nat) (ti : TrackInfo) (s s1 : MStream),
        stream_next_bit s = some s1 → s1.word % 65536 = 0x9521 →
        (stream_next_bits_x 16 s1).1 = true →
        mfm_decode_word ((stream_next_bits_x 16 s1).2.word % 65536) = 0 →
        (stream_next_bytes_x (2 * ti.len)
          (stream_next_bits_x 16 s1).2).1 = true →
        (stream_next_bytes_x 8 (stream_next_bytes_x (2 * ti.len)
          (stream_next_bits_x 16 s1).2).2.2).1 = true →
        (amigados_checksum (rtypeBDecodeGroups
            (stream_next_bytes_x (2 * ti.len)
              (stream_next_bits_x 16 s1).2).2.1) &&& 0x55555555)
          ||| 0xaaaaaaaa
          ≠ be32
            ((mfm_decode_bytes_even_odd 4 (stream_next_bytes_x 8
              (stream_next_bytes_x (2 * ti.len)
                (stream_next_bits_x 16 s1).2).2.2).2.1).getD 0 0)
            ((mfm_decode_bytes_even_odd 4 (stream_next_bytes_x 8
              (stream_next_bytes_x (2 * ti.len)
                (stream_next_bits_x 16 s1).2).2.2).2.1).getD 1 0)
            ((mfm_decode_bytes_even_odd 4 (stream_next_bytes_x 8
              (stream_next_bytes_x (2 * ti.len)
                (stream_next_bits_x 16 s1).2).2.2).2.1).getD 2 0)
            ((mfm_decode_bytes_even_odd 4 (stream_next_bytes_x 8
              (stream_next_bytes_x (2 * ti.len)
                (stream_next_bits_x 16 s1).2).2.2).2.1).getD 3 0) →
        rtype_b_scan (fuel + 1) ti s =
          rtype_b_scan fuel
            { ti with data_bitoff := wsub s1.indexOffsetBc 15 }
            (stream_next_bytes_x 8 (stream_next_bytes_x (2 * ti.len)
              (stream_next_bits_x 16 s1).2).2.2).2.2)
  ∧ (∀ (fuel : Nat) (ti : TrackInfo) (s : MStream) (d : List Nat)
        (ti' : TrackInfo) (s' : MStream),
        rtype_b_scan fuel ti s = (some d, ti', s') →
        ti'.total_bits = 105500)
  ∧ (∀ (ti : TrackInfo) (tb : TBuf),
        (rtype_b_read_mfm ti tb).bits =
          tb.bits ++ (natBitsMSB 16 0x9521 ++ (mfmEncodeBits true 8 0 ++
            ((rtypeBGroupBits false ti.dat).1 ++
              rtypeBTrailerBits (rtypeBGroupBits false ti.dat).2
                (rtypeBCsum ti.dat))))) := by
  refine ⟨?_, ?_, ?_, ?_⟩
  · intro fuel ti s s1 h hm h16 hfill hb ht hcs
    exact rtype_b_match_success fuel ti s s1 h hm h16 hfill hb ht hcs
  · intro fuel ti s s1 h hm h16 hfill hb ht hcs
    exact rtype_b_match_retry fuel ti s s1 h hm h16 hfill hb ht hcs
  · intro fuel ti s d ti' s' h
    exact rtype_b_success_total_bits fuel ti s d ti' s' h
  · intro ti tb
    exact rtype_b_encode_layout ti tb

theorem claim_C4_witness :
    rtype_b_scan (5 + 1) tiC4 sC4w =
      (some (rtypeBDecodeGroups (stream_next_bytes_x (2 * tiC4.len)
         (stream_next_bits_x 16 sC4a).2).2.1),
       { tiC4 with data_bitoff := wsub sC4a.indexOffsetBc 15,
                   valid_sectors := 2 ^ tiC4.nr_sectors - 1,
                   total_bits := 105500 },
       (stream_next_bytes_x 8 (stream_next_bytes_x (2 * tiC4.len)
         (stream_next_bits_x 16 sC4a).2).2.2).2.2) :=
  claim_C4.1 5 tiC4 sC4w sC4a rfl (by decide) (by decide) (by decide)
    (by decide) (by decide) (by decide)

